import Mathlib

/-!
Verification development for the `nil` dynamic binary translator core.

The Rust sources are shallowly embedded as executable Lean definitions:

* machine integers (`u32`, `usize`) become `Nat`, with `% 2 ^ 32` applied
  exactly where the source performs wrapping arithmetic;
* `HashMap` / `BTreeMap` fields become association lists (a `BTreeMap`
  iterates its entries in key order, so the interval map keeps its list
  sorted by the derived `Ord` on `Var`);
* code that can `panic!` / `assert!` / `unwrap()` becomes `Option`-valued,
  with `none` for the panicking executions.

Each definition carries a comment naming the Rust item it embeds.
-/

set_option maxRecDepth 4096

namespace Nil

/-- guest.rs: `pub type RegIdx = u32`. -/
abbrev RegIdx := Nat

/-- Wrapping 32-bit addition, `u32::wrapping_add`. -/
def wadd (x y : Nat) : Nat := (x + y) % 2 ^ 32

/-- Wrapping 32-bit subtraction, `u32::wrapping_sub` (operands already below `2 ^ 32`). -/
def wsub (x y : Nat) : Nat := (x + (2 ^ 32 - y % 2 ^ 32)) % 2 ^ 32

/-- guest.rs: `ProgramCounter::exec`, the fetch pc wrapping-plus-8. -/
def pcExec (pc : Nat) : Nat := wadd pc 8

/-- guest.rs: `ProgramCounter::increment`, the fetch pc wrapping-plus-4. -/
def pcIncrement (pc : Nat) : Nat := wadd pc 4

/-- guest.rs: condition codes. -/
inductive Cond
  | EQ | NE | CS | CC | MI | PL | VS | VC | HI | LS | GE | LT | GT | LE | AL
deriving DecidableEq, Repr

/-- guest.rs: `impl From<u32> for Cond`; the source panics on condition bits
`0b1111`, which is modelled as `none`. -/
def Cond.fromBits (x : Nat) : Option Cond :=
  match x with
  | 0 => some Cond.EQ
  | 1 => some Cond.NE
  | 2 => some Cond.CS
  | 3 => some Cond.CC
  | 4 => some Cond.MI
  | 5 => some Cond.PL
  | 6 => some Cond.VS
  | 7 => some Cond.VC
  | 8 => some Cond.HI
  | 9 => some Cond.LS
  | 10 => some Cond.GE
  | 11 => some Cond.LT
  | 12 => some Cond.GT
  | 13 => some Cond.LE
  | 14 => some Cond.AL
  | _ => none

/-- ir/mod.rs: `enum VarKind`. -/
inductive VarKind
  | Local
  | Constant (value : Nat)
  | GuestReg (reg : RegIdx)
deriving DecidableEq, Repr

/-- ir/mod.rs: `struct Var`. -/
structure Var where
  id : Nat
  width : Nat
  kind : VarKind
deriving DecidableEq, Repr

/-- ir/mod.rs: `Var::new_local`. -/
def Var.new_local (id width : Nat) : Var :=
  { id := id, width := width, kind := VarKind.Local }

/-- ir/mod.rs: `Var::new_constant`. -/
def Var.new_constant (id width val : Nat) : Var :=
  { id := id, width := width, kind := VarKind.Constant val }

/-- ir/mod.rs: `Var::new_guestreg` (width is always 32). -/
def Var.new_guestreg (id : Nat) (reg : RegIdx) : Var :=
  { id := id, width := 32, kind := VarKind.GuestReg reg }

/-- ir/mod.rs: `struct Constant`. -/
structure Constant where
  width : Nat
  value : Nat
deriving DecidableEq, Repr

/-- ir/mod.rs: `Constant::new`, masking the value to `width` bits. -/
def Constant.new (width value : Nat) : Constant :=
  { width := width, value := value &&& ((1 <<< width) - 1) }

/-- ir/mod.rs: `enum FlagKind`. -/
inductive FlagKind
  | Negative | Zero | Carry | Overflow
deriving DecidableEq, Repr

/-- ir/mod.rs: `enum MemoryOp`. -/
inductive MemoryOp
  | Load32 (addr : Var)
  | Store32 (addr val : Var)
deriving DecidableEq, Repr

/-- ir/mod.rs: `enum ArithOp`. -/
inductive ArithOp
  | Add32 (x y : Var)
  | Sub32 (x y : Var)
  | And32 (x y : Var)
  | Or32 (x y : Var)
  | Shl32 (x y : Var)
  | Shr32 (x y : Var)
  | Lsl32 (x y : Var)
  | IsZero (x : Var)
  | IsNegative (x : Var)
deriving DecidableEq, Repr

/-- ir/mod.rs: `enum BindOp`. -/
inductive BindOp
  | Const (c : Constant)
  | ReadGuestReg (reg : RegIdx)
  | WriteGuestReg (reg : RegIdx) (v : Var)
  | ReadFlag (kind : FlagKind)
  | WriteFlag (kind : FlagKind) (v : Var)
deriving DecidableEq, Repr

/-- ir/mod.rs: `enum Operation`. -/
inductive Operation
  | Memory (op : MemoryOp)
  | Arith (op : ArithOp)
  | Bind (op : BindOp)
deriving DecidableEq, Repr

/-- ir/mod.rs: `struct Instruction`. -/
structure Instruction where
  guest_op : Nat
  lh : Option Var
  lh_c : Option Var
  lh_v : Option Var
  rh : Operation
deriving DecidableEq, Repr

/-- ir/mod.rs: `Instruction::get_used_vars`. -/
def Instruction.get_used_vars (inst : Instruction) : List Var :=
  match inst.rh with
  | Operation.Bind (BindOp.WriteGuestReg _ v) => [v]
  | Operation.Bind (BindOp.WriteFlag _ v) => [v]
  | Operation.Bind _ => []
  | Operation.Memory (MemoryOp.Load32 v) => [v]
  | Operation.Memory (MemoryOp.Store32 a v) => [a, v]
  | Operation.Arith (ArithOp.Lsl32 x y) => [x, y]
  | Operation.Arith (ArithOp.Add32 x y) => [x, y]
  | Operation.Arith (ArithOp.Sub32 x y) => [x, y]
  | Operation.Arith (ArithOp.And32 x y) => [x, y]
  | Operation.Arith (ArithOp.Or32 x y) => [x, y]
  | Operation.Arith (ArithOp.Shl32 x y) => [x, y]
  | Operation.Arith (ArithOp.Shr32 x y) => [x, y]
  | Operation.Arith (ArithOp.IsNegative x) => [x]
  | Operation.Arith (ArithOp.IsZero x) => [x]

/-- ir/mod.rs: `Instruction::constant`. -/
def Instruction.constant (opcd : Nat) (v : Var) (c : Constant) : Instruction :=
  { guest_op := opcd, lh := some v, lh_c := none, lh_v := none,
    rh := Operation.Bind (BindOp.Const c) }

/-- ir/mod.rs: `Instruction::read_reg`. -/
def Instruction.read_reg (opcd : Nat) (v : Var) (reg : RegIdx) : Instruction :=
  { guest_op := opcd, lh := some v, lh_c := none, lh_v := none,
    rh := Operation.Bind (BindOp.ReadGuestReg reg) }

/-- ir/mod.rs: `Instruction::write_reg`. -/
def Instruction.write_reg (opcd : Nat) (reg : RegIdx) (val : Var) : Instruction :=
  { guest_op := opcd, lh := none, lh_c := none, lh_v := none,
    rh := Operation.Bind (BindOp.WriteGuestReg reg val) }

/-- ir/mod.rs: `Instruction::read_flag`. -/
def Instruction.read_flag (opcd : Nat) (v : Var) (kind : FlagKind) : Instruction :=
  { guest_op := opcd, lh := some v, lh_c := none, lh_v := none,
    rh := Operation.Bind (BindOp.ReadFlag kind) }

/-- ir/mod.rs: `Instruction::write_flag`. -/
def Instruction.write_flag (opcd : Nat) (kind : FlagKind) (val : Var) : Instruction :=
  { guest_op := opcd, lh := none, lh_c := none, lh_v := none,
    rh := Operation.Bind (BindOp.WriteFlag kind val) }

/-- ir/mod.rs: `Instruction::load32`. -/
def Instruction.load32 (opcd : Nat) (v addr : Var) : Instruction :=
  { guest_op := opcd, lh := some v, lh_c := none, lh_v := none,
    rh := Operation.Memory (MemoryOp.Load32 addr) }

/-- ir/mod.rs: `Instruction::store32`. -/
def Instruction.store32 (opcd : Nat) (addr val : Var) : Instruction :=
  { guest_op := opcd, lh := none, lh_c := none, lh_v := none,
    rh := Operation.Memory (MemoryOp.Store32 addr val) }

/-- ir/mod.rs: `Instruction::add32`. -/
def Instruction.add32 (opcd : Nat) (dst x y : Var) : Instruction :=
  { guest_op := opcd, lh := some dst, lh_c := none, lh_v := none,
    rh := Operation.Arith (ArithOp.Add32 x y) }

/-- ir/mod.rs: `Instruction::sub32`. -/
def Instruction.sub32 (opcd : Nat) (dst x y : Var) : Instruction :=
  { guest_op := opcd, lh := some dst, lh_c := none, lh_v := none,
    rh := Operation.Arith (ArithOp.Sub32 x y) }

/-- ir/mod.rs: `Instruction::sub32f`, binding carry and overflow outputs. -/
def Instruction.sub32f (opcd : Nat) (dst c v x y : Var) : Instruction :=
  { guest_op := opcd, lh := some dst, lh_c := some c, lh_v := some v,
    rh := Operation.Arith (ArithOp.Sub32 x y) }

/-- ir/mod.rs: `Instruction::lsl32f`, binding carry and overflow outputs. -/
def Instruction.lsl32f (opcd : Nat) (dst c v x y : Var) : Instruction :=
  { guest_op := opcd, lh := some dst, lh_c := some c, lh_v := some v,
    rh := Operation.Arith (ArithOp.Lsl32 x y) }

/-- ir/mod.rs: `Instruction::is_zero`. -/
def Instruction.is_zero (opcd : Nat) (dst x : Var) : Instruction :=
  { guest_op := opcd, lh := some dst, lh_c := none, lh_v := none,
    rh := Operation.Arith (ArithOp.IsZero x) }

/-- ir/mod.rs: `Instruction::is_negative`. -/
def Instruction.is_negative (opcd : Nat) (dst x : Var) : Instruction :=
  { guest_op := opcd, lh := some dst, lh_c := none, lh_v := none,
    rh := Operation.Arith (ArithOp.IsNegative x) }

/-- block/mod.rs: `enum BlockLink`. -/
inductive BlockLink
  | BranchAndLink (target new_lr : Var)
  | Branch (target : Var)
  | BranchCond (cond : Cond) (taken not_taken : Var)
deriving DecidableEq, Repr

/-- Association-list lookup keyed by `Constant`, embedding `HashMap::get`. -/
def cmLookup (m : List (Constant × Var)) (c : Constant) : Option Var :=
  match m with
  | [] => none
  | (k, v) :: rest => if k = c then some v else cmLookup rest c

/-- Association-list update keyed by `Constant`, embedding `HashMap::insert`. -/
def cmInsert (m : List (Constant × Var)) (c : Constant) (v : Var) :
    List (Constant × Var) :=
  match m with
  | [] => [(c, v)]
  | (k, w) :: rest => if k = c then (c, v) :: rest else (k, w) :: cmInsert rest c v

/-- Association-list removal keyed by `Constant`, embedding `HashMap::remove`. -/
def cmRemove (m : List (Constant × Var)) (c : Constant) : List (Constant × Var) :=
  match m with
  | [] => []
  | (k, w) :: rest => if k = c then rest else (k, w) :: cmRemove rest c

/-- Association-list update keyed by `VarId`, embedding `HashMap::insert`. -/
def vmInsert (m : List (Nat × Var)) (id : Nat) (v : Var) : List (Nat × Var) :=
  match m with
  | [] => [(id, v)]
  | (k, w) :: rest => if k = id then (id, v) :: rest else (k, w) :: vmInsert rest id v

/-- block/mod.rs: `struct LocalBindings`. -/
structure LocalBindings where
  cur_varid : Nat
  var_map : List (Nat × Var)
  const_map : List (Constant × Var)
deriving DecidableEq, Repr

/-- block/mod.rs: `LocalBindings::new`. -/
def LocalBindings.new : LocalBindings :=
  { cur_varid := 0, var_map := [], const_map := [] }

/-- block/mod.rs: `LocalBindings::get_constant`. -/
def LocalBindings.get_constant (lb : LocalBindings) (c : Constant) : Option Var :=
  cmLookup lb.const_map c

/-- block/mod.rs: `LocalBindings::remove_constant`. -/
def LocalBindings.remove_constant (lb : LocalBindings) (c : Constant) : LocalBindings :=
  { lb with const_map := cmRemove lb.const_map c }

/-- block/mod.rs: `LocalBindings::alloca_local` (fresh id, registered in `var_map`). -/
def LocalBindings.alloca_local (lb : LocalBindings) (width : Nat) : Var × LocalBindings :=
  let var := Var.new_local lb.cur_varid width
  (var, { lb with cur_varid := lb.cur_varid + 1, var_map := vmInsert lb.var_map var.id var })

/-- block/mod.rs: `LocalBindings::alloca_constant` (also extends the constant cache). -/
def LocalBindings.alloca_constant (lb : LocalBindings) (c : Constant) : Var × LocalBindings :=
  let var := Var.new_constant lb.cur_varid c.width c.value
  (var,
    { lb with
      cur_varid := lb.cur_varid + 1,
      const_map := cmInsert lb.const_map c var,
      var_map := vmInsert lb.var_map var.id var })

/-- block/mod.rs: `LocalBindings::alloca_guestreg`. -/
def LocalBindings.alloca_guestreg (lb : LocalBindings) (reg : RegIdx) : Var × LocalBindings :=
  let var := Var.new_guestreg lb.cur_varid reg
  (var, { lb with cur_varid := lb.cur_varid + 1, var_map := vmInsert lb.var_map var.id var })

/-- block/mod.rs: `struct BasicBlock` (the fields the translation pipeline
mutates; the executable code buffer and the cached interval/storage maps are
recomputed values and live outside this structure). `cur_pc` is the `_pc`
field of the source. -/
structure BasicBlock where
  base_pc : Nat
  data : List Instruction
  link : Option BlockLink
  lb : LocalBindings
  guest_ops : List Nat
  cur_pc : Nat
deriving DecidableEq, Repr

/-- block/mod.rs: `BasicBlock::new`. -/
def BasicBlock.new (pc : Nat) : BasicBlock :=
  { base_pc := pc, data := [], link := none, lb := LocalBindings.new,
    guest_ops := [], cur_pc := pc }

/-- block/mod.rs: `BasicBlock::last_opcd`; the source `unwrap()`s, modelled
as an `Option`. -/
def BasicBlock.last_opcd (bb : BasicBlock) : Option Nat :=
  bb.guest_ops.getLast?

/-- block/mod.rs: `BasicBlock::push`; `assert!(self.link.is_none())` makes the
push fail on a terminated block. -/
def BasicBlock.push (bb : BasicBlock) (inst : Instruction) : Option BasicBlock :=
  match bb.link with
  | some _ => none
  | none => some { bb with data := bb.data ++ [inst] }

/-- block/mod.rs: `BasicBlock::read_fetch_pc`. -/
def BasicBlock.read_fetch_pc (bb : BasicBlock) : Nat := bb.cur_pc

/-- block/mod.rs: `BasicBlock::read_exec_pc` (fetch pc wrapping-plus-8). -/
def BasicBlock.read_exec_pc (bb : BasicBlock) : Nat := pcExec bb.cur_pc

/-- block/mod.rs: `BasicBlock::increment_pc`. -/
def BasicBlock.increment_pc (bb : BasicBlock) : BasicBlock :=
  { bb with cur_pc := pcIncrement bb.cur_pc }

/-- block/mod.rs: `BasicBlock::terminate`; `assert!(self.link.is_none())` makes
a second termination fail. -/
def BasicBlock.terminate (bb : BasicBlock) (link : BlockLink) : Option BasicBlock :=
  match bb.link with
  | some _ => none
  | none => some { bb with link := some link }

/-- block/lifter.rs: `BindOpLifter::constant` for `BasicBlock`. The trait
parameter order is `(value, width)` and the body calls `Constant::new(value,
width)`, whose own parameter order is `(width, value)`; the embedding mirrors
the positional call exactly, so the first argument is the constant's width at
every call site. -/
def BasicBlock.constant (bb : BasicBlock) (value width : Nat) : Option (Var × BasicBlock) :=
  let c := Constant.new value width
  match bb.lb.get_constant c with
  | some var => some (var, bb)
  | none =>
    match bb.last_opcd with
    | none => none
    | some opcd =>
      let (v, lb) := bb.lb.alloca_constant c
      match BasicBlock.push { bb with lb := lb } (Instruction.constant opcd v c) with
      | none => none
      | some bb2 => some (v, bb2)

/-- block/lifter.rs: `BindOpLifter::read_reg` for `BasicBlock`. -/
def BasicBlock.read_reg (bb : BasicBlock) (reg : RegIdx) : Option (Var × BasicBlock) :=
  match bb.last_opcd with
  | none => none
  | some opcd =>
    let (v, lb) := bb.lb.alloca_guestreg reg
    match BasicBlock.push { bb with lb := lb } (Instruction.read_reg opcd v reg) with
    | none => none
    | some bb2 => some (v, bb2)

/-- block/lifter.rs: `BindOpLifter::write_reg` for `BasicBlock`. -/
def BasicBlock.write_reg (bb : BasicBlock) (reg : RegIdx) (val : Var) : Option BasicBlock :=
  match bb.last_opcd with
  | none => none
  | some opcd => BasicBlock.push bb (Instruction.write_reg opcd reg val)

/-- block/lifter.rs: `BindOpLifter::read_flag` for `BasicBlock`. -/
def BasicBlock.read_flag (bb : BasicBlock) (kind : FlagKind) : Option (Var × BasicBlock) :=
  match bb.last_opcd with
  | none => none
  | some opcd =>
    let (v, lb) := bb.lb.alloca_local 1
    match BasicBlock.push { bb with lb := lb } (Instruction.read_flag opcd v kind) with
    | none => none
    | some bb2 => some (v, bb2)

/-- block/lifter.rs: `BindOpLifter::write_flag` for `BasicBlock`. -/
def BasicBlock.write_flag (bb : BasicBlock) (kind : FlagKind) (val : Var) : Option BasicBlock :=
  match bb.last_opcd with
  | none => none
  | some opcd => BasicBlock.push bb (Instruction.write_flag opcd kind val)

/-- block/lifter.rs: `MemoryOpLifter::load32` for `BasicBlock`. -/
def BasicBlock.load32 (bb : BasicBlock) (addr : Var) : Option (Var × BasicBlock) :=
  match bb.last_opcd with
  | none => none
  | some opcd =>
    let (v, lb) := bb.lb.alloca_local 32
    match BasicBlock.push { bb with lb := lb } (Instruction.load32 opcd v addr) with
    | none => none
    | some bb2 => some (v, bb2)

/-- block/lifter.rs: `MemoryOpLifter::store32` for `BasicBlock`. -/
def BasicBlock.store32 (bb : BasicBlock) (addr val : Var) : Option BasicBlock :=
  match bb.last_opcd with
  | none => none
  | some opcd => BasicBlock.push bb (Instruction.store32 opcd addr val)

/-- block/lifter.rs: `ArithOpLifter::add32` for `BasicBlock`. -/
def BasicBlock.add32 (bb : BasicBlock) (x y : Var) : Option (Var × BasicBlock) :=
  match bb.last_opcd with
  | none => none
  | some opcd =>
    let (res, lb) := bb.lb.alloca_local 32
    match BasicBlock.push { bb with lb := lb } (Instruction.add32 opcd res x y) with
    | none => none
    | some bb2 => some (res, bb2)

/-- block/lifter.rs: `ArithOpLifter::sub32` for `BasicBlock`. -/
def BasicBlock.sub32 (bb : BasicBlock) (x y : Var) : Option (Var × BasicBlock) :=
  match bb.last_opcd with
  | none => none
  | some opcd =>
    let (res, lb) := bb.lb.alloca_local 32
    match BasicBlock.push { bb with lb := lb } (Instruction.sub32 opcd res x y) with
    | none => none
    | some bb2 => some (res, bb2)

/-- block/lifter.rs: `ArithOpLifter::sub32f` for `BasicBlock`: a 32-bit result
plus two 1-bit locals for the carry/overflow outputs. -/
def BasicBlock.sub32f (bb : BasicBlock) (x y : Var) : Option (Var × Var × Var × BasicBlock) :=
  match bb.last_opcd with
  | none => none
  | some opcd =>
    let (res, lb1) := bb.lb.alloca_local 32
    let (c, lb2) := lb1.alloca_local 1
    let (v, lb3) := lb2.alloca_local 1
    match BasicBlock.push { bb with lb := lb3 } (Instruction.sub32f opcd res c v x y) with
    | none => none
    | some bb2 => some (res, c, v, bb2)

/-- block/lifter.rs: `ArithOpLifter::lsl32f` for `BasicBlock`. -/
def BasicBlock.lsl32f (bb : BasicBlock) (x y : Var) : Option (Var × Var × Var × BasicBlock) :=
  match bb.last_opcd with
  | none => none
  | some opcd =>
    let (res, lb1) := bb.lb.alloca_local 32
    let (c, lb2) := lb1.alloca_local 1
    let (v, lb3) := lb2.alloca_local 1
    match BasicBlock.push { bb with lb := lb3 } (Instruction.lsl32f opcd res c v x y) with
    | none => none
    | some bb2 => some (res, c, v, bb2)

/-- block/lifter.rs: `ArithOpLifter::is_zero` for `BasicBlock`. -/
def BasicBlock.is_zero (bb : BasicBlock) (x : Var) : Option (Var × BasicBlock) :=
  match bb.last_opcd with
  | none => none
  | some opcd =>
    let (res, lb) := bb.lb.alloca_local 1
    match BasicBlock.push { bb with lb := lb } (Instruction.is_zero opcd res x) with
    | none => none
    | some bb2 => some (res, bb2)

/-- block/lifter.rs: `ArithOpLifter::is_negative` for `BasicBlock`. -/
def BasicBlock.is_negative (bb : BasicBlock) (x : Var) : Option (Var × BasicBlock) :=
  match bb.last_opcd with
  | none => none
  | some opcd =>
    let (res, lb) := bb.lb.alloca_local 1
    match BasicBlock.push { bb with lb := lb } (Instruction.is_negative opcd res x) with
    | none => none
    | some bb2 => some (res, bb2)

/-- lift/alu.rs: `ShiftType` (2-bit field); `From<u32>` is total on the values
the accessors produce. -/
inductive ShiftType
  | Lsl | Lsr | Asr | Ror
deriving DecidableEq, Repr

/-- lift/alu.rs: `impl From<u32> for ShiftType`; out-of-range bits are
`unreachable!()`, modelled as `none`. -/
def ShiftType.fromBits (x : Nat) : Option ShiftType :=
  match x with
  | 0 => some ShiftType.Lsl
  | 1 => some ShiftType.Lsr
  | 2 => some ShiftType.Asr
  | 3 => some ShiftType.Ror
  | _ => none

/-- lift/alu.rs: `enum ShiftArgs`. -/
inductive ShiftArgs
  | Imm (imm12 : Nat)
  | Reg (rm : Var) (stype : Nat) (imm5 : Nat)
  | Rsr (rm : Var) (stype : Nat) (rs : Nat)

/-- Embedding of `u32::rotate_right` (the rotation count is reduced mod 32). -/
def rotr32 (x n : Nat) : Nat :=
  ((x >>> (n % 32)) ||| (x <<< (32 - n % 32))) &&& 0xffffffff

/-- lift/alu.rs: `rot_by_imm`, the immediate form of the barrel shifter. -/
def rot_by_imm (bb : BasicBlock) (imm12 : Nat) : Option (Var × Var × BasicBlock) :=
  let simm := (imm12 &&& 0xf00) >>> 8
  let imm8 := imm12 &&& 0xff
  let val := rotr32 imm8 (simm * 2)
  match bb.constant 32 val with
  | none => none
  | some (res, bb1) =>
    if simm = 0 then
      match bb1.read_flag FlagKind.Carry with
      | none => none
      | some (c, bb2) => some (res, c, bb2)
    else
      let carry_bool : Nat := if val &&& 0x80000000 ≠ 0 then 1 else 0
      match bb1.constant 1 carry_bool with
      | none => none
      | some (c, bb2) => some (res, c, bb2)

/-- lift/alu.rs: `do_lsl`, logical shift left by an immediate. -/
def do_lsl (bb : BasicBlock) (rm : Var) (simm : Nat) : Option (Var × Var × BasicBlock) :=
  if simm = 0 then
    match bb.read_flag FlagKind.Carry with
    | none => none
    | some (c, bb1) => some (rm, c, bb1)
  else
    match bb.constant 32 simm with
    | none => none
    | some (simm_val, bb1) =>
      match bb1.lsl32f rm simm_val with
      | none => none
      | some (res, c_out, _, bb2) => some (res, c_out, bb2)

/-- lift/alu.rs: `shift_by_imm`; only LSL is implemented, other shift types
are `unimplemented!()`. -/
def shift_by_imm (bb : BasicBlock) (rm : Var) (stype imm5 : Nat) :
    Option (Var × Var × BasicBlock) :=
  match ShiftType.fromBits stype with
  | some ShiftType.Lsl => do_lsl bb rm imm5
  | _ => none

/-- lift/alu.rs: `barrel_shift`, returning the shifted value and the carry-out. -/
def barrel_shift (bb : BasicBlock) (args : ShiftArgs) : Option (Var × Var × BasicBlock) :=
  match args with
  | ShiftArgs.Imm imm12 => rot_by_imm bb imm12
  | ShiftArgs.Reg rm stype imm5 => shift_by_imm bb rm stype imm5
  | ShiftArgs.Rsr _ _ _ => none

/-- Modelled from the spec: the bitfield accessor module `lift/arm/bits.rs`
(`LsImmBits`, `DpImmBits`, `LsMultiBits`, `BranchBits`, ...) is not among the
provided sources; the accessors below follow the standard ARMv5 field layout
the spec's scenarios rely on (condition in bits 28..31). -/
def opCond (op : Nat) : Nat := (op >>> 28) &&& 0xf

/-- Modelled from the spec: `rn` field, opcode bits 16..19. -/
def opRn (op : Nat) : Nat := (op >>> 16) &&& 0xf

/-- Modelled from the spec: `rd` field, opcode bits 12..15. -/
def opRd (op : Nat) : Nat := (op >>> 12) &&& 0xf

/-- Modelled from the spec: `rt` field, opcode bits 12..15. -/
def opRt (op : Nat) : Nat := (op >>> 12) &&& 0xf

/-- Modelled from the spec: `rm` field, opcode bits 0..3. -/
def opRm (op : Nat) : Nat := op &&& 0xf

/-- Modelled from the spec: 12-bit immediate, opcode bits 0..11. -/
def opImm12 (op : Nat) : Nat := op &&& 0xfff

/-- Modelled from the spec: 24-bit branch immediate, opcode bits 0..23. -/
def opImm24 (op : Nat) : Nat := op &&& 0xffffff

/-- Modelled from the spec: load/store multiple register list, bits 0..15. -/
def opRegisterList (op : Nat) : Nat := op &&& 0xffff

/-- Modelled from the spec: pre-index bit P, opcode bit 24. -/
def opP (op : Nat) : Bool := op.testBit 24

/-- Modelled from the spec: up/down bit U, opcode bit 23. -/
def opU (op : Nat) : Bool := op.testBit 23

/-- Modelled from the spec: writeback bit W, opcode bit 21. -/
def opW (op : Nat) : Bool := op.testBit 21

/-- Modelled from the spec: flag-setting bit S, opcode bit 20. -/
def opS (op : Nat) : Bool := op.testBit 20

/-- Modelled from the spec: shift type field, opcode bits 5..6. -/
def opStype (op : Nat) : Nat := (op >>> 5) &&& 0x3

/-- Modelled from the spec: shift immediate field, opcode bits 7..11. -/
def opImm5 (op : Nat) : Nat := (op >>> 7) &&& 0x1f

/-- Embedding of `u32::count_ones`. -/
def count_ones32 (n : Nat) : Nat :=
  ((List.range 32).filter (fun i => n.testBit i)).length

/-- lift/arm/loadstore.rs: `amode_lit`, the literal addressing mode. -/
def amode_lit (pc imm : Nat) (p u : Bool) : Nat :=
  match p, u with
  | true, true => wadd pc imm
  | true, false => wsub pc imm
  | _, _ => pc

/-- lift/arm/loadstore.rs: `amode`; returns `(effective_addr, writeback_value)`.
The `(P=0, W=1)` combination panics, modelled as `none`. -/
def amode (bb : BasicBlock) (rn imm : Var) (u p w : Bool) :
    Option ((Var × Var) × BasicBlock) :=
  match (if u then bb.add32 rn imm else bb.sub32 rn imm) with
  | none => none
  | some (res, bb1) =>
    match p, w with
    | false, false => some ((rn, res), bb1)
    | true, false => some ((res, rn), bb1)
    | true, true => some ((res, res), bb1)
    | false, true => none

/-- lift/arm/loadstore.rs: `ldr_imm`. -/
def ldr_imm (bb : BasicBlock) (op : Nat) : Option BasicBlock :=
  if Cond.fromBits (opCond op) ≠ some Cond.AL then none else
  match
    (if opRn op = 15 then
      let addr_val := amode_lit bb.read_exec_pc (opImm12 op) (opP op) (opU op)
      match bb.constant 32 addr_val with
      | none => none
      | some (addr, bb1) => bb1.load32 addr
    else
      match bb.read_reg (opRn op) with
      | none => none
      | some (rn, bb1) =>
        match bb1.constant 32 (opImm12 op) with
        | none => none
        | some (imm, bb2) =>
          match amode bb2 rn imm (opU op) (opP op) (opW op) with
          | none => none
          | some ((addr, wb_addr), bb3) =>
            match bb3.write_reg (opRn op) wb_addr with
            | none => none
            | some bb4 => bb4.load32 addr)
  with
  | none => none
  | some (res, bb5) =>
    if opRt op = 15 then none else bb5.write_reg (opRt op) res

/-- lift/arm/loadstore.rs: `str_imm`. -/
def str_imm (bb : BasicBlock) (op : Nat) : Option BasicBlock :=
  if Cond.fromBits (opCond op) ≠ some Cond.AL then none else
  match bb.read_reg (opRt op) with
  | none => none
  | some (rt, bb1) =>
    match bb1.read_reg (opRn op) with
    | none => none
    | some (rn, bb2) =>
      match bb2.constant 32 (opImm12 op) with
      | none => none
      | some (imm, bb3) =>
        match amode bb3 rn imm (opU op) (opP op) (opW op) with
        | none => none
        | some ((addr, wb_addr), bb4) =>
          match bb4.write_reg (opRn op) wb_addr with
          | none => none
          | some bb5 => bb5.store32 addr rt

/-- lift/arm/loadstore.rs: the store loop of `stm_common` over `0..=14`
(the remaining iteration count is `15 - reg_idx`). -/
def stmLoop (list : Nat) (inc_val : Var) :
    Nat → Var → BasicBlock → Option (Var × BasicBlock)
  | 0, addr, bb => some (addr, bb)
  | n + 1, addr, bb =>
    let reg_idx := 15 - (n + 1)
    if list.testBit reg_idx then
      match bb.read_reg reg_idx with
      | none => none
      | some (reg_val, bb1) =>
        match bb1.store32 addr reg_val with
        | none => none
        | some bb2 =>
          match bb2.add32 addr inc_val with
          | none => none
          | some (addr2, bb3) => stmLoop list inc_val n addr2 bb3
    else stmLoop list inc_val n addr bb

/-- lift/arm/loadstore.rs: `stm_common`. The final branch for bit 15 is
embedded exactly as written in the source: `bb.store32(pc_val, addr)`, whose
first argument is the address operand of the `Store32`. -/
def stm_common (bb : BasicBlock) (list : Nat) (rn : RegIdx)
    (base_addr wb_addr : Var) (w : Bool) : Option BasicBlock :=
  match bb.constant 32 4 with
  | none => none
  | some (inc_val, bb1) =>
    match stmLoop list inc_val 15 base_addr bb1 with
    | none => none
    | some (addr, bb2) =>
      match (if w then bb2.write_reg rn wb_addr else some bb2) with
      | none => none
      | some bb3 =>
        if list.testBit 15 then
          match bb3.constant 32 bb3.read_exec_pc with
          | none => none
          | some (pc_val, bb4) => bb4.store32 pc_val addr
        else some bb3

/-- lift/arm/loadstore.rs: `stmdb`; asserts condition AL and `rn != 15`. -/
def stmdb (bb : BasicBlock) (op : Nat) : Option BasicBlock :=
  if Cond.fromBits (opCond op) ≠ some Cond.AL then none else
  if opRn op = 15 then none else
  let reglist := opRegisterList op
  let num_regs := count_ones32 reglist
  match bb.constant 32 (num_regs * 4) with
  | none => none
  | some (addr_off, bb1) =>
    match bb1.read_reg (opRn op) with
    | none => none
    | some (rn_val, bb2) =>
      match bb2.sub32 rn_val addr_off with
      | none => none
      | some (base_addr, bb3) =>
        stm_common bb3 reglist (opRn op) base_addr base_addr (opW op)

/-- lift/arm/dataproc.rs: `sub_imm`. -/
def sub_imm (bb : BasicBlock) (op : Nat) : Option BasicBlock :=
  if Cond.fromBits (opCond op) ≠ some Cond.AL then none else
  match barrel_shift bb (ShiftArgs.Imm (opImm12 op)) with
  | none => none
  | some (imm, _, bb1) =>
    match
      (if opRn op = 15 then bb1.constant 32 bb1.read_exec_pc
       else bb1.read_reg (opRn op))
    with
    | none => none
    | some (rn, bb2) =>
      match bb2.sub32f rn imm with
      | none => none
      | some (res, c, v, bb3) =>
        if opRd op = 15 then none else
        match
          (if opS op then
            match bb3.is_negative res with
            | none => none
            | some (n, bb4) =>
              match bb4.is_zero res with
              | none => none
              | some (z, bb5) =>
                match bb5.write_flag FlagKind.Negative n with
                | none => none
                | some bb6 =>
                  match bb6.write_flag FlagKind.Zero z with
                  | none => none
                  | some bb7 =>
                    match bb7.write_flag FlagKind.Carry c with
                    | none => none
                    | some bb8 => bb8.write_flag FlagKind.Overflow v
          else some bb3)
        with
        | none => none
        | some bb9 => bb9.write_reg (opRd op) res

/-- lift/arm/dataproc.rs: `mov_imm`. -/
def mov_imm (bb : BasicBlock) (op : Nat) : Option BasicBlock :=
  if Cond.fromBits (opCond op) ≠ some Cond.AL then none else
  match barrel_shift bb (ShiftArgs.Imm (opImm12 op)) with
  | none => none
  | some (imm, c_out, bb1) =>
    if opRd op = 15 then none else
    match bb1.write_reg (opRd op) imm with
    | none => none
    | some bb2 =>
      if opS op then
        match bb2.is_negative imm with
        | none => none
        | some (n, bb3) =>
          match bb3.is_zero imm with
          | none => none
          | some (z, bb4) =>
            match bb4.write_flag FlagKind.Negative n with
            | none => none
            | some bb5 =>
              match bb5.write_flag FlagKind.Zero z with
              | none => none
              | some bb6 => bb6.write_flag FlagKind.Carry c_out
      else some bb2

/-- lift/arm/dataproc.rs: `mov_reg`. -/
def mov_reg (bb : BasicBlock) (op : Nat) : Option BasicBlock :=
  if Cond.fromBits (opCond op) ≠ some Cond.AL then none else
  match
    (if opRm op = 15 then bb.constant 32 bb.read_exec_pc
     else bb.read_reg (opRm op))
  with
  | none => none
  | some (rm, bb1) =>
    match barrel_shift bb1 (ShiftArgs.Reg rm (opStype op) (opImm5 op)) with
    | none => none
    | some (res, c, bb2) =>
      if opRd op = 15 then none else
      match bb2.write_reg (opRd op) res with
      | none => none
      | some bb3 =>
        if opS op then
          match bb3.is_negative res with
          | none => none
          | some (n, bb4) =>
            match bb4.is_zero res with
            | none => none
            | some (z, bb5) =>
              match bb5.write_flag FlagKind.Negative n with
              | none => none
              | some bb6 =>
                match bb6.write_flag FlagKind.Zero z with
                | none => none
                | some bb7 => bb7.write_flag FlagKind.Carry c
        else some bb3

/-- lift/arm/dataproc.rs: `cmp_imm`. -/
def cmp_imm (bb : BasicBlock) (op : Nat) : Option BasicBlock :=
  if Cond.fromBits (opCond op) ≠ some Cond.AL then none else
  match bb.read_reg (opRn op) with
  | none => none
  | some (rn, bb1) =>
    match barrel_shift bb1 (ShiftArgs.Imm (opImm12 op)) with
    | none => none
    | some (imm, _, bb2) =>
      match bb2.sub32f rn imm with
      | none => none
      | some (res, c, v, bb3) =>
        match bb3.is_negative res with
        | none => none
        | some (n, bb4) =>
          match bb4.is_zero res with
          | none => none
          | some (z, bb5) =>
            match bb5.write_flag FlagKind.Negative n with
            | none => none
            | some bb6 =>
              match bb6.write_flag FlagKind.Zero z with
              | none => none
              | some bb7 =>
                match bb7.write_flag FlagKind.Carry c with
                | none => none
                | some bb8 => bb8.write_flag FlagKind.Overflow v

/-- lift/arm/branch.rs: `sign_extend`. The source computes, on `i32`,
`x | (!0 << bits)` when bit `bits-1` of `x` is set; for an input already
masked below `2 ^ bits` that two's-complement OR equals subtracting
`2 ^ bits`. -/
def sign_extend (x bits : Nat) : Int :=
  if (x >>> (bits - 1)) &&& 1 ≠ 0 then (x : Int) - ((1 <<< bits : Nat) : Int)
  else (x : Int)

/-- Reduction of an `i32` value to the `u32` it reinterprets as
(`as u32` after `i32::wrapping_add`). -/
def i32ToU32 (x : Int) : Nat := (x % (2 ^ 32 : Int)).toNat

/-- lift/arm/branch.rs: `b`. -/
def b (bb : BasicBlock) (op : Nat) : Option BasicBlock :=
  let offset := sign_extend (opImm24 op) 24 * 4
  let target_val := i32ToU32 ((bb.read_exec_pc : Int) + offset)
  match bb.constant 32 target_val with
  | none => none
  | some (target, bb1) =>
    match Cond.fromBits (opCond op) with
    | none => none
    | some Cond.AL => bb1.terminate (BlockLink.Branch target)
    | some cond =>
      match bb1.constant 32 (wadd bb1.read_fetch_pc 4) with
      | none => none
      | some (target_false, bb2) =>
        bb2.terminate (BlockLink.BranchCond cond target target_false)

/-- lift/arm/branch.rs: `bl_imm`. -/
def bl_imm (bb : BasicBlock) (op : Nat) : Option BasicBlock :=
  if Cond.fromBits (opCond op) ≠ some Cond.AL then none else
  let offset := sign_extend (opImm24 op) 24 * 4
  let lr_val := wadd bb.read_fetch_pc 4
  match bb.constant 32 lr_val with
  | none => none
  | some (new_lr, bb1) =>
    let target_val := i32ToU32 ((bb1.read_exec_pc : Int) + offset)
    match bb1.constant 32 target_val with
    | none => none
    | some (target, bb2) =>
      bb2.terminate (BlockLink.BranchAndLink target new_lr)

/-- lift/decode.rs: `enum ArmInst`. -/
inductive ArmInst
  | AndRegShiftReg | AdcRegShiftReg | MovRegShiftReg | OrrRegShiftReg
  | EorRegShiftReg | RscRegShiftReg | MvnRegShiftReg | SbcRegShiftReg
  | AddRegShiftReg | BicRegShiftReg | RsbRegShiftReg | SubRegShiftReg
  | TeqRegShiftReg | CmnRegShiftReg | TstRegShiftReg | CmpRegShiftReg
  | SbcReg | OrrReg | BicReg | AddReg | RscReg | EorReg | MvnReg | AdcReg
  | SubReg | MovReg | AndReg | RsbReg | CmpReg | TstReg | CmnReg | TeqReg
  | MovImm | AddImm | AdcImm | RsbImm | OrrImm | BicImm | SubImm | MvnImm
  | AndImm | RscImm | EorImm | SbcImm | CmnImm | CmpImm | TstImm | TeqImm
  | StrImm | StrhImm | StrdImm | StrbImm | StrReg | StrbReg | StrhReg | StrdReg
  | LdrImm | LdrhImm | LdrdImm | LdrbImm | LdrsbImm | LdrshImm
  | LdrReg | LdrbReg | LdrhReg | LdrdReg | LdrsbReg | LdrshReg
  | Qdadd | Qsub | Qadd | Qdsub | Smull | Umlal | Smlal | Umull | Mul | Mla
  | Smulwb | Smlawb | Smlalbb | Smlabb | Smulbb
  | Ldrbt | Strbt | Ldrt | Strt
  | MovImmAlt | LdrbtAlt | StrbtAlt | LdrtAlt | StrtAlt
  | Stm | Stmda | Ldmda | Ldmib | Ldmdb | Ldm | Stmdb | Stmib
  | LdmRegUser | StmRegUser
  | MsrImm | MsrReg | Mrs | Mcrr | Mrrc | Mrc | Mcr | Stc
  | PldReg | PldImm | LdcImm | Clz
  | B | BlImm | Bx | BlxReg | Bxj
  | Svc | Bkpt
  | Undefined
deriving DecidableEq, Repr

/-- lift/decode.rs: `ArmInst::decode`, the ordered cascade of mask/match
groups; first match wins, fallthrough is `Undefined`. -/
def ArmInst.decode (opcd : Nat) : ArmInst :=
  match opcd &&& 0x0ff000f0 with
  | 0x01400050 => ArmInst.Qdadd
  | 0x01200050 => ArmInst.Qsub
  | 0x01000050 => ArmInst.Qadd
  | 0x01600050 => ArmInst.Qdsub
  | 0x01200010 => ArmInst.Bx
  | 0x01600010 => ArmInst.Clz
  | 0x01200020 => ArmInst.Bxj
  | 0x01200070 => ArmInst.Bkpt
  | 0x01200030 => ArmInst.BlxReg
  | _ =>
  match opcd &&& 0x0fe000f0 with
  | 0x00c00090 => ArmInst.Smull
  | 0x00a00090 => ArmInst.Umlal
  | 0x00e00090 => ArmInst.Smlal
  | 0x00800090 => ArmInst.Umull
  | 0x00000090 => ArmInst.Mul
  | 0x00200090 => ArmInst.Mla
  | _ =>
  match opcd &&& 0x0fb000f0 with
  | 0x01200000 => ArmInst.MsrReg
  | 0x01000000 => ArmInst.Mrs
  | _ =>
  match opcd &&& 0x0ff000b0 with
  | 0x012000a0 => ArmInst.Smulwb
  | 0x01200080 => ArmInst.Smlawb
  | _ =>
  match opcd &&& 0x0ff00090 with
  | 0x01400080 => ArmInst.Smlalbb
  | 0x01300010 => ArmInst.TeqRegShiftReg
  | 0x01700010 => ArmInst.CmnRegShiftReg
  | 0x01100010 => ArmInst.TstRegShiftReg
  | 0x01500010 => ArmInst.CmpRegShiftReg
  | 0x01000080 => ArmInst.Smlabb
  | 0x01600080 => ArmInst.Smulbb
  | _ =>
  match opcd &&& 0x0e5000f0 with
  | 0x005000d0 => ArmInst.LdrsbImm
  | 0x000000f0 => ArmInst.StrdReg
  | 0x004000b0 => ArmInst.StrhImm
  | 0x001000d0 => ArmInst.LdrsbReg
  | 0x005000f0 => ArmInst.LdrshImm
  | 0x001000f0 => ArmInst.LdrshReg
  | 0x004000f0 => ArmInst.StrdImm
  | 0x005000b0 => ArmInst.LdrhImm
  | 0x000000d0 => ArmInst.LdrdReg
  | 0x001000b0 => ArmInst.LdrhReg
  | 0x004000d0 => ArmInst.LdrdImm
  | 0x000000b0 => ArmInst.StrhReg
  | _ =>
  match opcd &&& 0x0fe00090 with
  | 0x00000010 => ArmInst.AndRegShiftReg
  | 0x00a00010 => ArmInst.AdcRegShiftReg
  | 0x01a00010 => ArmInst.MovRegShiftReg
  | 0x01800010 => ArmInst.OrrRegShiftReg
  | 0x00200010 => ArmInst.EorRegShiftReg
  | 0x00e00010 => ArmInst.RscRegShiftReg
  | 0x01e00010 => ArmInst.MvnRegShiftReg
  | 0x00c00010 => ArmInst.SbcRegShiftReg
  | 0x00800010 => ArmInst.AddRegShiftReg
  | 0x01c00010 => ArmInst.BicRegShiftReg
  | 0x00600010 => ArmInst.RsbRegShiftReg
  | 0x00400010 => ArmInst.SubRegShiftReg
  | _ =>
  match opcd &&& 0x0ff00010 with
  | 0x01500000 => ArmInst.CmpReg
  | 0x01100000 => ArmInst.TstReg
  | 0x01700000 => ArmInst.CmnReg
  | 0x01300000 => ArmInst.TeqReg
  | _ =>
  match opcd &&& 0x0ff00000 with
  | 0x03000000 => ArmInst.MovImmAlt
  | 0x03700000 => ArmInst.CmnImm
  | 0x0c400000 => ArmInst.Mcrr
  | 0x03500000 => ArmInst.CmpImm
  | 0x03100000 => ArmInst.TstImm
  | 0x0c500000 => ArmInst.Mrrc
  | 0x03300000 => ArmInst.TeqImm
  | _ =>
  match opcd &&& 0x0f700010 with
  | 0x06700000 => ArmInst.LdrbtAlt
  | 0x06600000 => ArmInst.StrbtAlt
  | 0x06300000 => ArmInst.LdrtAlt
  | 0x06200000 => ArmInst.StrtAlt
  | _ =>
  match opcd &&& 0x0fe00010 with
  | 0x00c00000 => ArmInst.SbcReg
  | 0x01800000 => ArmInst.OrrReg
  | 0x01c00000 => ArmInst.BicReg
  | 0x00800000 => ArmInst.AddReg
  | 0x00e00000 => ArmInst.RscReg
  | 0x00200000 => ArmInst.EorReg
  | 0x01e00000 => ArmInst.MvnReg
  | 0x00a00000 => ArmInst.AdcReg
  | 0x00400000 => ArmInst.SubReg
  | 0x01a00000 => ArmInst.MovReg
  | 0x00000000 => ArmInst.AndReg
  | 0x00600000 => ArmInst.RsbReg
  | _ =>
  match opcd &&& 0x0fe00000 with
  | 0x03a00000 => ArmInst.MovImm
  | 0x02800000 => ArmInst.AddImm
  | 0x02a00000 => ArmInst.AdcImm
  | 0x02600000 => ArmInst.RsbImm
  | 0x03800000 => ArmInst.OrrImm
  | 0x03c00000 => ArmInst.BicImm
  | 0x02400000 => ArmInst.SubImm
  | 0x03e00000 => ArmInst.MvnImm
  | 0x02000000 => ArmInst.AndImm
  | 0x02e00000 => ArmInst.RscImm
  | 0x02200000 => ArmInst.EorImm
  | 0x02c00000 => ArmInst.SbcImm
  | _ =>
  match opcd &&& 0x0f700000 with
  | 0x04700000 => ArmInst.Ldrbt
  | 0x04600000 => ArmInst.Strbt
  | 0x04300000 => ArmInst.Ldrt
  | 0x04200000 => ArmInst.Strt
  | _ =>
  match opcd &&& 0x0fd00000 with
  | 0x08800000 => ArmInst.Stm
  | 0x08000000 => ArmInst.Stmda
  | 0x08100000 => ArmInst.Ldmda
  | 0x09900000 => ArmInst.Ldmib
  | 0x09100000 => ArmInst.Ldmdb
  | 0x08900000 => ArmInst.Ldm
  | 0x09000000 => ArmInst.Stmdb
  | 0x09800000 => ArmInst.Stmib
  | _ =>
  match opcd &&& 0x0fb00000 with
  | 0x03200000 => ArmInst.MsrImm
  | _ =>
  match opcd &&& 0x0e500010 with
  | 0x06100000 => ArmInst.LdrReg
  | 0x06400000 => ArmInst.StrbReg
  | 0x06500000 => ArmInst.LdrbReg
  | 0x06000000 => ArmInst.StrReg
  | _ =>
  match opcd &&& 0x0f100010 with
  | 0x0e100010 => ArmInst.Mrc
  | 0x0e000010 => ArmInst.Mcr
  | _ =>
  match opcd &&& 0x0e500000 with
  | 0x0c000000 => ArmInst.Stc
  | 0x08500000 => ArmInst.LdmRegUser
  | 0x0c100000 => ArmInst.LdcImm
  | 0x04000000 => ArmInst.StrImm
  | 0x04400000 => ArmInst.StrbImm
  | 0x04500000 => ArmInst.LdrbImm
  | 0x08400000 => ArmInst.StmRegUser
  | 0x04100000 => ArmInst.LdrImm
  | _ =>
  match opcd &&& 0x0f000000 with
  | 0x0f000000 => ArmInst.Svc
  | 0x0a000000 => ArmInst.B
  | 0x0b000000 => ArmInst.BlImm
  | _ => ArmInst.Undefined

/-- lift/dispatch.rs: the handler a decoded instruction dispatches to. The
source stores function pointers (`struct ArmFn`); following the spec's design
note they are embedded as tags, one per distinct handler. -/
inductive ArmFn
  | arm_unimpl_instr
  | ldr_imm_fn | str_imm_fn | stmdb_fn
  | sub_imm_fn | mov_imm_fn | mov_reg_fn | cmp_imm_fn
  | b_fn | bl_imm_fn
deriving DecidableEq, Repr

/-- lift/dispatch.rs: `ArmFn::from_inst`. `LdrImm`, `SubImm`, `StrImm`,
`Stmdb`, `B`, `BlImm`, `MovImm`, `MovReg` and `CmpImm` map to their lifter
handlers; every other listed arm and the catch-all map to
`arm_unimpl_instr`. -/
def ArmFn.from_inst (inst : ArmInst) : ArmFn :=
  match inst with
  | ArmInst.LdrImm => ArmFn.ldr_imm_fn
  | ArmInst.SubImm => ArmFn.sub_imm_fn
  | ArmInst.StrImm => ArmFn.str_imm_fn
  | ArmInst.Stmdb => ArmFn.stmdb_fn
  | ArmInst.B => ArmFn.b_fn
  | ArmInst.BlImm => ArmFn.bl_imm_fn
  | ArmInst.MovImm => ArmFn.mov_imm_fn
  | ArmInst.MovReg => ArmFn.mov_reg_fn
  | ArmInst.CmpImm => ArmFn.cmp_imm_fn
  | _ => ArmFn.arm_unimpl_instr

/-- Running a dispatched handler on the block; `arm_unimpl_instr` panics in
the source, modelled as `none`. -/
def ArmFn.run (f : ArmFn) (bb : BasicBlock) (op : Nat) : Option BasicBlock :=
  match f with
  | ArmFn.arm_unimpl_instr => none
  | ArmFn.ldr_imm_fn => ldr_imm bb op
  | ArmFn.str_imm_fn => str_imm bb op
  | ArmFn.stmdb_fn => stmdb bb op
  | ArmFn.sub_imm_fn => sub_imm bb op
  | ArmFn.mov_imm_fn => mov_imm bb op
  | ArmFn.mov_reg_fn => mov_reg bb op
  | ArmFn.cmp_imm_fn => cmp_imm bb op
  | ArmFn.b_fn => b bb op
  | ArmFn.bl_imm_fn => bl_imm bb op

/-- lift/lut.rs: `ArmLut::idx_to_opcd`, the canonical opcode of a LUT index. -/
def ArmLut.idx_to_opcd (idx : Nat) : Nat :=
  ((idx &&& 0x0ff0) <<< 16) ||| ((idx &&& 0x000f) <<< 4)

/-- lift/lut.rs: `ArmLut::opcd_to_idx`, the compressed 12-bit key. -/
def ArmLut.opcd_to_idx (opcd : Nat) : Nat :=
  ((opcd >>> 16) &&& 0x0ff0) ||| ((opcd >>> 4) &&& 0x000f)

/-- lift/lut.rs: `ArmLut::create_lut` populates entry `i` with
`ArmFn::from_inst(ArmInst::decode(idx_to_opcd(i)))`; the table is embedded as
that function of the index (the loop covers all 0x1000 entries, so the
default entry never survives). -/
def ArmLut.entry (idx : Nat) : ArmFn :=
  ArmFn.from_inst (ArmInst.decode (ArmLut.idx_to_opcd idx))

/-- lift/lut.rs: `ArmLut::lookup`. -/
def ArmLut.lookup (opcd : Nat) : ArmFn :=
  ArmLut.entry (ArmLut.opcd_to_idx opcd)

/-- block/lifter.rs: the loop body of `BasicBlock::lift`. The guest memory
seen at successive fetch pcs is supplied as the opcode list `prog`; running
off the end of the supplied program is `none`. -/
def liftLoop : List Nat → BasicBlock → Option BasicBlock
  | [], _ => none
  | opcd :: rest, bb =>
    let bb1 := { bb with guest_ops := bb.guest_ops ++ [opcd] }
    match (ArmLut.lookup opcd).run bb1 opcd with
    | none => none
    | some bb2 =>
      match bb2.link with
      | some _ => some bb2
      | none => liftLoop rest bb2.increment_pc

/-- block/lifter.rs: `BasicBlock::lift`, starting from a fresh block at the
guest pc. -/
def BasicBlock.lift (pc : Nat) (prog : List Nat) : Option BasicBlock :=
  liftLoop prog (BasicBlock.new pc)

/-- One iteration of the lift loop applied to a single handler: a fresh block
at `pc` whose `guest_ops` already holds the fetched opcode, exactly the state
in which `BasicBlock::lift` invokes a handler for the first instruction of a
block. -/
def liftOne (handler : BasicBlock → Nat → Option BasicBlock) (pc op : Nat) :
    Option BasicBlock :=
  handler { BasicBlock.new pc with guest_ops := [op] } op

/-- Strict order on `VarKind` mirroring the derived Rust `Ord`
(`Local < Constant(_) < GuestReg(_)`, payloads compared within a variant). -/
def VarKind.ltb (a b : VarKind) : Bool :=
  match a, b with
  | VarKind.Local, VarKind.Local => false
  | VarKind.Local, _ => true
  | VarKind.Constant _, VarKind.Local => false
  | VarKind.Constant x, VarKind.Constant y => decide (x < y)
  | VarKind.Constant _, VarKind.GuestReg _ => true
  | VarKind.GuestReg _, VarKind.Local => false
  | VarKind.GuestReg _, VarKind.Constant _ => false
  | VarKind.GuestReg x, VarKind.GuestReg y => decide (x < y)

/-- Strict order on `Var` mirroring the derived Rust `Ord`
(lexicographic on `id`, `width`, `kind`); this is the `BTreeMap` key order. -/
def Var.ltb (a b : Var) : Bool :=
  if a.id < b.id then true
  else if b.id < a.id then false
  else if a.width < b.width then true
  else if b.width < a.width then false
  else VarKind.ltb a.kind b.kind

/-- regalloc.rs: `struct LiveInterval(def, last_use)`. -/
structure LiveInterval where
  def_idx : Nat
  last_use : Nat
deriving DecidableEq, Repr

/-- Insertion into the `BTreeMap` model: replace an existing key in place,
otherwise insert at the sorted position. -/
def imInsert (m : List (Var × LiveInterval)) (v : Var) (iv : LiveInterval) :
    List (Var × LiveInterval) :=
  match m with
  | [] => [(v, iv)]
  | (k, w) :: rest =>
    if v = k then (v, iv) :: rest
    else if Var.ltb v k then (v, iv) :: (k, w) :: rest
    else (k, w) :: imInsert rest v iv

/-- Lookup in the `BTreeMap` model. -/
def imLookup (m : List (Var × LiveInterval)) (v : Var) : Option LiveInterval :=
  match m with
  | [] => none
  | (k, w) :: rest => if k = v then some w else imLookup rest v

/-- In-place update of the `last_use` field of an existing entry
(`get_mut(&v).unwrap().1 = use_idx`). -/
def imUpdate (m : List (Var × LiveInterval)) (v : Var) (use_idx : Nat) :
    List (Var × LiveInterval) :=
  match m with
  | [] => []
  | (k, w) :: rest =>
    if k = v then (k, { w with last_use := use_idx }) :: rest
    else (k, w) :: imUpdate rest v use_idx

/-- regalloc.rs: `struct IntervalMap`, a `BTreeMap` from variables to live
intervals, modelled as a key-sorted association list. -/
structure IntervalMap where
  data : List (Var × LiveInterval)
deriving DecidableEq, Repr

/-- regalloc.rs: `IntervalMap::define_var`, inserting a `(def_idx, 0)` entry. -/
def IntervalMap.define_var (m : IntervalMap) (v : Var) (def_idx : Nat) : IntervalMap :=
  { data := imInsert m.data v { def_idx := def_idx, last_use := 0 } }

/-- regalloc.rs: `IntervalMap::use_var`; the source `unwrap()`s the entry, so
an absent variable is `none`. -/
def IntervalMap.use_var (m : IntervalMap) (v : Var) (use_idx : Nat) : Option IntervalMap :=
  match imLookup m.data v with
  | none => none
  | some _ => some { data := imUpdate m.data v use_idx }

/-- regalloc.rs: `IntervalMap::get_dead_vars`, the variables whose interval
endpoint is 0. -/
def IntervalMap.get_dead_vars (m : IntervalMap) : List Var :=
  (m.data.filter (fun e => decide (e.2.last_use = 0))).map (fun e => e.1)

/-- The `use_var` calls for one instruction's right-hand side. -/
def imUseList : List Var → Nat → IntervalMap → Option IntervalMap
  | [], _, m => some m
  | v :: vs, pos, m =>
    match m.use_var v pos with
    | none => none
    | some m2 => imUseList vs pos m2

/-- regalloc.rs: the left-hand-side block of the `from_block` loop body —
`lh`, `lh_c` and `lh_v` are defined at the instruction's position. -/
def defineLhs (m : IntervalMap) (inst : Instruction) (pos : Nat) : IntervalMap :=
  let m1 := match inst.lh with
    | some v => m.define_var v pos
    | none => m
  let m2 := match inst.lh_c with
    | some v => m1.define_var v pos
    | none => m1
  match inst.lh_v with
  | some v => m2.define_var v pos
  | none => m2

/-- regalloc.rs: the instruction loop of `IntervalMap::from_block` —
left-hand defines (`lh`, `lh_c`, `lh_v`), then right-hand uses. -/
def IntervalMap.fromInsts : List Instruction → Nat → IntervalMap → Option IntervalMap
  | [], _, m => some m
  | inst :: rest, pos, m =>
    match imUseList inst.get_used_vars pos (defineLhs m inst pos) with
    | none => none
    | some m4 => IntervalMap.fromInsts rest (pos + 1) m4

/-- regalloc.rs: `IntervalMap::from_block`; asserts the block is terminated
and marks the terminator's variables as used at position `data.len()`. -/
def IntervalMap.from_block (bb : BasicBlock) : Option IntervalMap :=
  match IntervalMap.fromInsts bb.data 0 { data := [] } with
  | none => none
  | some m =>
    match bb.link with
    | none => none
    | some (BlockLink.Branch addr) => m.use_var addr bb.data.length
    | some (BlockLink.BranchAndLink addr lr) =>
      match m.use_var addr bb.data.length with
      | none => none
      | some m2 => m2.use_var lr bb.data.length
    | some (BlockLink.BranchCond _ t f) =>
      match m.use_var t bb.data.length with
      | none => none
      | some m2 => m2.use_var f bb.data.length

/-- regalloc.rs: `enum HostRegister`. -/
inductive HostRegister
  | RAX | RCX | RDX | RBX | RSP | RBP | RSI | RDI
  | R8 | R9 | R10 | R11 | R12 | R13 | R14 | R15
deriving DecidableEq, Repr

/-- regalloc.rs: the discriminant values of `HostRegister`. -/
def HostRegister.val (r : HostRegister) : Nat :=
  match r with
  | HostRegister.RAX => 0x0
  | HostRegister.RCX => 0x1
  | HostRegister.RDX => 0x2
  | HostRegister.RBX => 0x3
  | HostRegister.RSP => 0x4
  | HostRegister.RBP => 0x5
  | HostRegister.RSI => 0x6
  | HostRegister.RDI => 0x7
  | HostRegister.R8 => 0x8
  | HostRegister.R9 => 0x9
  | HostRegister.R10 => 0xA
  | HostRegister.R11 => 0xB
  | HostRegister.R12 => 0xC
  | HostRegister.R13 => 0xD
  | HostRegister.R14 => 0xE
  | HostRegister.R15 => 0xF

/-- regalloc.rs: `enum StorageLoc`. -/
inductive StorageLoc
  | Gpr (r : Nat)
  | Const (c : Nat)
deriving DecidableEq, Repr

/-- Association-list update keyed by `Var`, embedding `HashMap::insert` of the
storage map. -/
def smInsert (m : List (Var × StorageLoc)) (v : Var) (s : StorageLoc) :
    List (Var × StorageLoc) :=
  match m with
  | [] => [(v, s)]
  | (k, w) :: rest => if k = v then (v, s) :: rest else (k, w) :: smInsert rest v s

/-- regalloc.rs: `struct StorageMap`. -/
structure StorageMap where
  data : List (Var × StorageLoc)
deriving DecidableEq, Repr

/-- regalloc.rs: `StorageMap::new`. -/
def StorageMap.new : StorageMap := { data := [] }

/-- regalloc.rs: `StorageMap::bind`. -/
def StorageMap.bind (m : StorageMap) (v : Var) (s : StorageLoc) : StorageMap :=
  { data := smInsert m.data v s }

/-- Association-list lookup keyed by `Var`, embedding `HashMap::get` of the
storage map. -/
def smLookup : List (Var × StorageLoc) → Var → Option StorageLoc
  | [], _ => none
  | (k, w) :: rest, v => if k = v then some w else smLookup rest v

/-- regalloc.rs: `StorageMap::get`. -/
def StorageMap.get (m : StorageMap) (v : Var) : Option StorageLoc :=
  smLookup m.data v

/-- regalloc.rs: `struct RegisterPool`. -/
structure RegisterPool where
  data : List HostRegister
deriving DecidableEq, Repr

/-- regalloc.rs: `RegisterPool::new`; the vector order matters because
registers are taken from the end. -/
def RegisterPool.new : RegisterPool :=
  { data := [HostRegister.R11, HostRegister.R10, HostRegister.R9, HostRegister.R8,
             HostRegister.RBX, HostRegister.RDX, HostRegister.RCX, HostRegister.RAX] }

/-- regalloc.rs: `RegisterPool::take`, removing the last element; empty pools
are guarded by `is_empty` in the allocator, so `none` models the panic. -/
def RegisterPool.take (p : RegisterPool) : Option (HostRegister × RegisterPool) :=
  match p.data.getLast? with
  | none => none
  | some r => some (r, { data := p.data.dropLast })

/-- regalloc.rs: `RegisterPool::put_back`, pushing onto the end. -/
def RegisterPool.put_back (p : RegisterPool) (r : HostRegister) : RegisterPool :=
  { data := p.data ++ [r] }

/-- regalloc.rs: `struct ActiveEntry`. -/
structure ActiveEntry where
  var : Var
  interval : LiveInterval
  reg : HostRegister
deriving DecidableEq, Repr

/-- regalloc.rs: the entry loop of `allocate_registers`: constants are bound
to `StorageLoc::Const`; otherwise expired active entries return their
registers to the pool (in list order, mirroring `retain` + `put_back`) and a
register is taken for the variable; an empty pool is the
`panic!(spilling unimplemented)` case, modelled as `none`. -/
def allocLoop :
    List (Var × LiveInterval) → List ActiveEntry → RegisterPool → StorageMap →
    Option StorageMap
  | [], _, _, storage => some storage
  | (var, interval) :: rest, active, pool, storage =>
    match var.kind with
    | VarKind.Constant c =>
      allocLoop rest active pool (storage.bind var (StorageLoc.Const c))
    | _ =>
      let freed := active.filter (fun a => decide (a.interval.last_use ≤ interval.def_idx))
      let active1 := active.filter (fun a => !decide (a.interval.last_use ≤ interval.def_idx))
      let pool1 : RegisterPool := { data := pool.data ++ freed.map (fun a => a.reg) }
      match pool1.take with
      | none => none
      | some (reg, pool2) =>
        allocLoop rest
          (active1 ++ [{ var := var, interval := interval, reg := reg }])
          pool2
          (storage.bind var (StorageLoc.Gpr reg.val))

/-- regalloc.rs: `allocate_registers`. -/
def allocate_registers (intervals : IntervalMap) : Option StorageMap :=
  allocLoop intervals.data [] RegisterPool.new StorageMap.new

/-- opt.rs: the two side-binding clears of the dead-variable loop body. -/
def clearFlags (inst : Instruction) (dvar : Var) : Instruction :=
  let inst1 :=
    match inst.lh_c with
    | some c => if c = dvar then { inst with lh_c := none } else inst
    | none => inst
  match inst1.lh_v with
  | some v => if v = dvar then { inst1 with lh_v := none } else inst1
  | none => inst1

/-- opt.rs: the `for dvar in deadlist` loop of `prune_dead_vars`: constants
leave the constant cache, and matching `lh_c`/`lh_v` bindings are cleared in
every instruction. -/
def pruneProcessDead :
    List Var → List Instruction → LocalBindings → List Instruction × LocalBindings
  | [], data, lb => (data, lb)
  | dvar :: rest, data, lb =>
    let lb1 :=
      match dvar.kind with
      | VarKind.Constant c => lb.remove_constant (Constant.new dvar.width c)
      | _ => lb
    pruneProcessDead rest (data.map (fun i => clearFlags i dvar)) lb1

/-- opt.rs: the `retain` predicate of `prune_dead_vars`: keep instructions
with a surviving flag binding, instructions without a result, and
instructions whose result is not dead. -/
def pruneRetain (deadlist : List Var) (inst : Instruction) : Bool :=
  if inst.lh_c.isSome || inst.lh_v.isSome then true
  else
    deadlist.all (fun dvar =>
      match inst.lh with
      | some var => decide (dvar ≠ var)
      | none => true)

/-- opt.rs: one iteration of the `prune_dead_vars` fixpoint loop. The first
component is true when the dead list was empty and the loop exits. -/
def pruneStep (bb : BasicBlock) : Option (Bool × BasicBlock) :=
  match IntervalMap.from_block bb with
  | none => none
  | some intervals =>
    let deadlist := intervals.get_dead_vars
    if deadlist = [] then some (true, bb)
    else
      let cleared := pruneProcessDead deadlist bb.data bb.lb
      some (false,
        { bb with data := cleared.1.filter (pruneRetain deadlist), lb := cleared.2 })

/-- opt.rs: `BasicBlock::prune_dead_vars`; the source loops until the dead
list is empty, embedded with explicit fuel, `none` when the fuel runs out
before the loop exits (or an iteration panics). -/
def prune_dead_vars : Nat → BasicBlock → Option BasicBlock
  | 0, _ => none
  | fuel + 1, bb =>
    match pruneStep bb with
    | none => none
    | some (true, bb1) => some bb1
    | some (false, bb1) => prune_dead_vars fuel bb1

/-! Claim theorems. -/

/-- C1: the claim states that an `stmdb` opcode with register-list bit 15 set
ends in `Store32(addr := final store address, val := constant exec PC)`. The
source calls `bb.store32(pc_val, addr)` with the two operands swapped:
lifting opcode 0xE92D8003 — stmdb sp!, with r0, r1 and pc listed — at fetch pc 0x1000
produces a final `Store32` whose address operand is the 32-bit constant
0x1008 (the exec PC) and whose value operand is the local variable holding
the final store address (`base_addr + 8`), the reverse of the claim. -/
theorem C1_stmdb_pc_store_operands_swapped :
    (liftOne stmdb 0x1000 0xE92D8003).map (fun bb => bb.data.getLast?) =
      some (some
        { guest_op := 0xE92D8003, lh := none, lh_c := none, lh_v := none,
          rh := Operation.Memory (MemoryOp.Store32
            { id := 8, width := 32, kind := VarKind.Constant 0x1008 }
            { id := 7, width := 32, kind := VarKind.Local }) }) := by
  decide

/-- C3: the claim states that no implemented handler ever emits
`Bind(ReadGuestReg(15))`. Both `str_imm` (for `str r0, [pc]`, opcode
0xE58F0000) and `cmp_imm` (for `cmp pc, #0`, opcode 0xE35F0000) read R15
through `read_reg` with no PC special case, emitting `Bind(ReadGuestReg(15))`
instead of the exec-PC constant that `ldr_imm`, `sub_imm` and `mov_reg`
produce. -/
theorem C3_str_and_cmp_emit_readguestreg15 :
    (liftOne str_imm 0 0xE58F0000).map (fun bb =>
        bb.data.any (fun i =>
          decide (i.rh = Operation.Bind (BindOp.ReadGuestReg 15)))) = some true ∧
    (liftOne cmp_imm 0 0xE35F0000).map (fun bb =>
        bb.data.any (fun i =>
          decide (i.rh = Operation.Bind (BindOp.ReadGuestReg 15)))) = some true := by
  decide

/-- C9: while `link` is `none` the builder appends instructions and
`terminate` installs the terminator; once `link` is `some`, both `push` and a
second `terminate` hit the `assert!(self.link.is_none())` and fail, so no
instruction follows termination and the terminator is set at most once. -/
theorem C9_push_terminate_link_contract (bb : BasicBlock) (inst : Instruction)
    (l l2 : BlockLink) :
    (bb.link = none →
      bb.push inst = some { bb with data := bb.data ++ [inst] } ∧
      bb.terminate l = some { bb with link := some l }) ∧
    (∀ l0, bb.link = some l0 →
      bb.push inst = none ∧ bb.terminate l2 = none) := by
  constructor
  · intro h
    rw [BasicBlock.push, BasicBlock.terminate, h]
    exact ⟨rfl, rfl⟩
  · intro l0 h
    rw [BasicBlock.push, BasicBlock.terminate, h]
    exact ⟨rfl, rfl⟩

/-- C9 witness: both halves of the contract at concrete blocks. -/
theorem C9_push_terminate_link_contract_witness :
    ((BasicBlock.new 0).push (Instruction.write_reg 0 0 (Var.new_local 0 32)) =
        some { BasicBlock.new 0 with
          data := [Instruction.write_reg 0 0 (Var.new_local 0 32)] } ∧
      ({ BasicBlock.new 0 with
          link := some (BlockLink.Branch (Var.new_local 0 32)) } : BasicBlock).push
          (Instruction.write_reg 0 0 (Var.new_local 0 32)) = none) := by
  refine ⟨?_, ?_⟩
  · have h := (C9_push_terminate_link_contract (BasicBlock.new 0)
      (Instruction.write_reg 0 0 (Var.new_local 0 32))
      (BlockLink.Branch (Var.new_local 0 32)) (BlockLink.Branch (Var.new_local 0 32))).1 rfl
    simpa using h.1
  · have h := (C9_push_terminate_link_contract
      ({ BasicBlock.new 0 with link := some (BlockLink.Branch (Var.new_local 0 32)) })
      (Instruction.write_reg 0 0 (Var.new_local 0 32))
      (BlockLink.Branch (Var.new_local 0 32)) (BlockLink.Branch (Var.new_local 0 32))).2
      (BlockLink.Branch (Var.new_local 0 32)) rfl
    exact h.1

/-- C4: on an unterminated block (with a fetched opcode, so `last_opcd`
exists), `constant(value, width)` returns the cached variable for the masked
constant without appending anything, and on a cache miss allocates a fresh
`Constant`-kind variable of the constant's width and masked value, appends
the `Bind(Const)` instruction binding it as `lh`, and extends the constant
cache (and the variable map) with it. -/
theorem C4_constant_cache_behaviour (bb : BasicBlock) (value width : Nat)
    (v : Var) (opcd : Nat)
    (hlink : bb.link = none) (hopcd : bb.last_opcd = some opcd) :
    (bb.lb.get_constant (Constant.new value width) = some v →
      bb.constant value width = some (v, bb)) ∧
    (bb.lb.get_constant (Constant.new value width) = none →
      bb.constant value width =
        some (Var.new_constant bb.lb.cur_varid (Constant.new value width).width
                (Constant.new value width).value,
          { bb with
            data := bb.data ++
              [Instruction.constant opcd
                (Var.new_constant bb.lb.cur_varid (Constant.new value width).width
                  (Constant.new value width).value)
                (Constant.new value width)],
            lb := { cur_varid := bb.lb.cur_varid + 1,
                    var_map := vmInsert bb.lb.var_map bb.lb.cur_varid
                      (Var.new_constant bb.lb.cur_varid (Constant.new value width).width
                        (Constant.new value width).value),
                    const_map := cmInsert bb.lb.const_map (Constant.new value width)
                      (Var.new_constant bb.lb.cur_varid (Constant.new value width).width
                        (Constant.new value width).value) } })) := by
  constructor
  · intro h
    rw [BasicBlock.constant, h]
  · intro h
    rw [BasicBlock.constant, h, hopcd]
    simp only [LocalBindings.alloca_constant, BasicBlock.push, hlink, Var.new_constant]

/-- C4 witness: a concrete miss then a concrete hit on the resulting block. -/
theorem C4_constant_cache_behaviour_witness :
    ({ BasicBlock.new 0 with guest_ops := [7] } : BasicBlock).constant 32 5 =
      some (Var.new_constant 0 32 5,
        { BasicBlock.new 0 with
          guest_ops := [7],
          data := [Instruction.constant 7 (Var.new_constant 0 32 5) (Constant.new 32 5)],
          lb := { cur_varid := 1,
                  var_map := [(0, Var.new_constant 0 32 5)],
                  const_map := [(Constant.new 32 5, Var.new_constant 0 32 5)] } }) := by
  have h := (C4_constant_cache_behaviour
    ({ BasicBlock.new 0 with guest_ops := [7] }) 32 5 (Var.new_local 0 1) 7
    rfl rfl).2 rfl
  simpa [vmInsert, cmInsert, Constant.new, Var.new_constant] using h

/-- C2 counterexample: `ldr r0, [r1]` (opcode 0xE5910000) is a register-plus-
immediate load with P=1, W=0 and Rn = r1 ≠ PC, yet the lifted block contains
a `WriteGuestReg` targeting r1 — `ldr_imm`/`str_imm` call `write_reg`
unconditionally, so the claimed absence of a writeback is false. -/
theorem C2_p1w0_writeback_counterexample :
    opP 0xE5910000 = true ∧ opW 0xE5910000 = false ∧ opRn 0xE5910000 = 1 ∧
    Cond.fromBits (opCond 0xE5910000) = some Cond.AL ∧
    ArmInst.decode 0xE5910000 = ArmInst.LdrImm ∧
    (liftOne ldr_imm 0 0xE5910000).map (fun bb =>
      bb.data.any (fun i =>
        match i.rh with
        | Operation.Bind (BindOp.WriteGuestReg 1 _) => true
        | _ => false)) = some true := by
  decide

/-- C2 amended: for register-plus-immediate `StrImm`/`LdrImm` with P=1, W=0
(and Rn, Rt not PC, condition AL), the handler does succeed but always emits
one writeback: a `WriteGuestReg` targeting Rn whose value operand is exactly
the variable produced by the handler's own `ReadGuestReg(Rn)`, so the
emitted writeback re-writes Rn with its original value (Rn's architectural
value is unchanged, but its guest-register slot is written). -/
theorem C2_p1w0_redundant_writeback (pc op : Nat)
    (hcond : Cond.fromBits (opCond op) = some Cond.AL)
    (hp : opP op = true) (hw : opW op = false)
    (hrn : opRn op ≠ 15) (hrt : opRt op ≠ 15) :
    (∃ bb, liftOne str_imm pc op = some bb ∧
      Instruction.read_reg op (Var.new_guestreg 1 (opRn op)) (opRn op) ∈ bb.data ∧
      Instruction.write_reg op (opRn op) (Var.new_guestreg 1 (opRn op)) ∈ bb.data) ∧
    (∃ bb, liftOne ldr_imm pc op = some bb ∧
      Instruction.read_reg op (Var.new_guestreg 0 (opRn op)) (opRn op) ∈ bb.data ∧
      Instruction.write_reg op (opRn op) (Var.new_guestreg 0 (opRn op)) ∈ bb.data) := by
  constructor
  · cases hu : opU op <;>
    · simp only [liftOne, str_imm, hcond, hp, hw, hu, hrn, BasicBlock.new,
        LocalBindings.new, BasicBlock.read_reg, BasicBlock.last_opcd,
        List.getLast?, LocalBindings.alloca_guestreg, Var.new_guestreg,
        BasicBlock.push, BasicBlock.constant, LocalBindings.get_constant,
        cmLookup, LocalBindings.alloca_constant, Var.new_constant, amode,
        BasicBlock.add32, BasicBlock.sub32, LocalBindings.alloca_local,
        Var.new_local, BasicBlock.write_reg, BasicBlock.store32, vmInsert,
        cmInsert, ne_eq, ite_false, ite_true, reduceCtorEq]
      exact ⟨_, rfl,
        by simp [Instruction.read_reg, Var.new_guestreg],
        by simp [Instruction.write_reg, Var.new_guestreg]⟩
  · cases hu : opU op <;>
    · simp only [liftOne, ldr_imm, hcond, hp, hw, hu, hrn, hrt, BasicBlock.new,
        LocalBindings.new, BasicBlock.read_reg, BasicBlock.last_opcd,
        List.getLast?, LocalBindings.alloca_guestreg, Var.new_guestreg,
        BasicBlock.push, BasicBlock.constant, LocalBindings.get_constant,
        cmLookup, LocalBindings.alloca_constant, Var.new_constant, amode,
        BasicBlock.add32, BasicBlock.sub32, LocalBindings.alloca_local,
        Var.new_local, BasicBlock.write_reg, BasicBlock.load32, vmInsert,
        cmInsert, ne_eq, ite_false, ite_true, reduceCtorEq]
      exact ⟨_, rfl,
        by simp [Instruction.read_reg, Var.new_guestreg],
        by simp [Instruction.write_reg, Var.new_guestreg]⟩

/-- C2 witness: the amended statement at `str r0, [r1]` (opcode 0xE5810000),
with every hypothesis discharged concretely. -/
theorem C2_p1w0_redundant_writeback_witness :
    (∃ bb, liftOne str_imm 0 0xE5810000 = some bb ∧
      Instruction.read_reg 0xE5810000 (Var.new_guestreg 1 1) 1 ∈ bb.data ∧
      Instruction.write_reg 0xE5810000 1 (Var.new_guestreg 1 1) ∈ bb.data) := by
  have h := (C2_p1w0_redundant_writeback 0 0xE5810000
    (by decide) (by decide) (by decide) (by decide) (by decide)).1
  simpa using h
/-- Any `i32`-reinterpreted value is below `2 ^ 32`. -/
theorem lt_i32ToU32 (x : Int) : i32ToU32 x < 2 ^ 32 := by
  unfold i32ToU32
  have h1 : x % (2 ^ 32 : Int) < (2 ^ 32 : Int) := Int.emod_lt_of_pos x (by norm_num)
  omega

theorem wadd_lt (x y : Nat) : wadd x y < 2 ^ 32 := by
  unfold wadd
  exact Nat.mod_lt _ (by norm_num)

theorem Constant_new_32 (v : Nat) (h : v < 2 ^ 32) :
    Constant.new 32 v = { width := 32, value := v } := by
  unfold Constant.new
  have h1 : (1 <<< 32 : Nat) - 1 = 2 ^ 32 - 1 := by simp [Nat.shiftLeft_eq]
  rw [h1, Nat.and_pow_two_sub_one_eq_mod, Nat.mod_eq_of_lt h]

/-- C8: the `b` handler terminates the block with a 32-bit constant target
equal to `(fetch_pc + 8) + sign_extend(imm24, 24) * 4` under 32-bit wrapping
arithmetic; with condition AL the terminator is `Branch(target)`, and with
any other valid condition it is `BranchCond(cond, target, not_taken)` where
`not_taken` is a 32-bit constant equal to `fetch_pc + 4` (wrapped). -/
theorem C8_b_terminator (pc op : Nat) (c : Cond)
    (hc : Cond.fromBits (opCond op) = some c) :
    ∃ bb target,
      liftOne b pc op = some bb ∧
      target.width = 32 ∧
      target.kind = VarKind.Constant
        (i32ToU32 ((pcExec pc : Int) + sign_extend (opImm24 op) 24 * 4)) ∧
      (c = Cond.AL → bb.link = some (BlockLink.Branch target)) ∧
      (c ≠ Cond.AL → ∃ nt, nt.width = 32 ∧ nt.kind = VarKind.Constant (wadd pc 4) ∧
        bb.link = some (BlockLink.BranchCond c target nt)) := by
  have hm : Constant.new 32 (i32ToU32 ((pcExec pc : Int) + sign_extend (opImm24 op) 24 * 4)) =
      { width := 32, value := i32ToU32 ((pcExec pc : Int) + sign_extend (opImm24 op) 24 * 4) } :=
    Constant_new_32 _ (lt_i32ToU32 _)
  have hm4 : Constant.new 32 (wadd pc 4) = { width := 32, value := wadd pc 4 } :=
    Constant_new_32 _ (wadd_lt _ _)
  cases c
  case AL =>
    simp only [liftOne, b, hc, BasicBlock.new, LocalBindings.new, BasicBlock.read_exec_pc,
      BasicBlock.read_fetch_pc, BasicBlock.constant, hm, LocalBindings.get_constant,
      cmLookup, LocalBindings.alloca_constant, Var.new_constant, BasicBlock.push,
      BasicBlock.terminate, vmInsert, cmInsert]
    exact ⟨_, _, rfl, rfl, rfl, fun _ => rfl, fun hne => absurd rfl hne⟩
  all_goals
    by_cases h4 : i32ToU32 ((pcExec pc : Int) + sign_extend (opImm24 op) 24 * 4) = wadd pc 4
  all_goals
    simp only [liftOne, b, hc, BasicBlock.new, LocalBindings.new, BasicBlock.read_exec_pc,
      BasicBlock.read_fetch_pc, BasicBlock.constant, hm, hm4, h4, LocalBindings.get_constant,
      cmLookup, LocalBindings.alloca_constant, Var.new_constant, BasicBlock.push,
      BasicBlock.last_opcd, List.getLast?, BasicBlock.terminate, vmInsert, cmInsert,
      List.getLast, Constant.mk.injEq, and_true, true_and, reduceIte, reduceCtorEq,
      ite_true, ite_false]
  all_goals
    first
    | exact ⟨_, _, rfl, rfl, rfl, fun h => absurd h (by decide),
        fun _ => ⟨_, rfl, by rw [h4], rfl⟩⟩
    | exact ⟨_, _, rfl, rfl, by rw [h4], fun h => absurd h (by decide),
        fun _ => ⟨_, rfl, rfl, rfl⟩⟩
    | exact ⟨_, _, rfl, rfl, rfl, fun h => absurd h (by decide),
        fun _ => ⟨_, rfl, rfl, rfl⟩⟩

/-- C8 witness: the unconditional branch opcode 0xEA000003 at fetch pc 0x1000. -/
theorem C8_b_terminator_witness :
    Cond.fromBits (opCond 0xEA000003) = some Cond.AL ∧
    (∃ bb target,
      liftOne b 0x1000 0xEA000003 = some bb ∧
      target.width = 32 ∧
      target.kind = VarKind.Constant
        (i32ToU32 ((pcExec 0x1000 : Int) + sign_extend (opImm24 0xEA000003) 24 * 4)) ∧
      (Cond.AL = Cond.AL → bb.link = some (BlockLink.Branch target)) ∧
      (Cond.AL ≠ Cond.AL → ∃ nt, nt.width = 32 ∧ nt.kind = VarKind.Constant (wadd 0x1000 4) ∧
        bb.link = some (BlockLink.BranchCond Cond.AL target nt))) :=
  ⟨by decide, C8_b_terminator 0x1000 0xEA000003 Cond.AL (by decide)⟩

/-- Absorption of a decoder mask by the full relevance mask 0x0ff000f0. -/
theorem mask_absorb (x m M : Nat) (h : M &&& m = m) : (x &&& M) &&& m = x &&& m := by
  rw [Nat.and_assoc, h]

/-- The canonical opcode of an opcode's LUT key is the opcode masked to
bits 4..7 and 20..27. -/
theorem idx_opcd_roundtrip (x : Nat) :
    ArmLut.idx_to_opcd (ArmLut.opcd_to_idx x) = x &&& 0x0ff000f0 := by
  apply Nat.eq_of_testBit_eq
  intro i
  simp only [ArmLut.idx_to_opcd, ArmLut.opcd_to_idx, Nat.testBit_or, Nat.testBit_and,
    Nat.testBit_shiftLeft, Nat.testBit_shiftRight]
  rcases Nat.lt_or_ge i 32 with h | h
  · interval_cases i <;> simp [Nat.testBit]
  · have h1 : Nat.testBit 0x0ff000f0 i = false :=
      Nat.testBit_lt_two_pow
        (lt_of_lt_of_le (by norm_num)
          (Nat.pow_le_pow_right (by norm_num) (show 28 ≤ i by omega)))
    have h2 : Nat.testBit 4080 (i - 16) = false :=
      Nat.testBit_lt_two_pow
        (lt_of_lt_of_le (by norm_num)
          (Nat.pow_le_pow_right (by norm_num) (show 12 ≤ i - 16 by omega)))
    have h3 : Nat.testBit 15 (i - 4) = false :=
      Nat.testBit_lt_two_pow
        (lt_of_lt_of_le (by norm_num)
          (Nat.pow_le_pow_right (by norm_num) (show 4 ≤ i - 4 by omega)))
    simp [h1, h2, h3]

/-- Every mask tested by `ArmInst::decode` lies inside 0x0ff000f0, so the
decoder only depends on opcode bits 4..7 and 20..27. -/
theorem decode_depends_on_mask (x : Nat) :
    ArmInst.decode (x &&& 0x0ff000f0) = ArmInst.decode x := by
  unfold ArmInst.decode
  rw [mask_absorb x 0x0ff000f0 0x0ff000f0 (by decide),
      mask_absorb x 0x0fe000f0 0x0ff000f0 (by decide),
      mask_absorb x 0x0fb000f0 0x0ff000f0 (by decide),
      mask_absorb x 0x0ff000b0 0x0ff000f0 (by decide),
      mask_absorb x 0x0ff00090 0x0ff000f0 (by decide),
      mask_absorb x 0x0e5000f0 0x0ff000f0 (by decide),
      mask_absorb x 0x0fe00090 0x0ff000f0 (by decide),
      mask_absorb x 0x0ff00010 0x0ff000f0 (by decide),
      mask_absorb x 0x0ff00000 0x0ff000f0 (by decide),
      mask_absorb x 0x0f700010 0x0ff000f0 (by decide),
      mask_absorb x 0x0fe00010 0x0ff000f0 (by decide),
      mask_absorb x 0x0fe00000 0x0ff000f0 (by decide),
      mask_absorb x 0x0f700000 0x0ff000f0 (by decide),
      mask_absorb x 0x0fd00000 0x0ff000f0 (by decide),
      mask_absorb x 0x0fb00000 0x0ff000f0 (by decide),
      mask_absorb x 0x0e500010 0x0ff000f0 (by decide),
      mask_absorb x 0x0f100010 0x0ff000f0 (by decide),
      mask_absorb x 0x0e500000 0x0ff000f0 (by decide),
      mask_absorb x 0x0f000000 0x0ff000f0 (by decide)]

/-- C6: looking any 32-bit opcode up in the ARM LUT — whose 4096 entries were
built by decoding the canonical opcode of each compressed 12-bit key — yields
the same handler as decoding the opcode directly and mapping it through
`ArmFn::from_inst`: the key compression collapses exactly the opcode bits the
decoder never inspects (everything outside bits 4..7 and 20..27). -/
theorem C6_lut_decode_agreement (op : Nat) :
    ArmLut.lookup op = ArmFn.from_inst (ArmInst.decode op) := by
  unfold ArmLut.lookup ArmLut.entry
  rw [idx_opcd_roundtrip, decode_depends_on_mask]


/-- Variables named by a block terminator. -/
def linkVars : Option BlockLink → List Var
  | none => []
  | some (BlockLink.Branch a) => [a]
  | some (BlockLink.BranchAndLink a l) => [a, l]
  | some (BlockLink.BranchCond _ t f) => [t, f]

theorem imInsert_mem {m : List (Var × LiveInterval)} {v : Var} {iv : LiveInterval}
    {e : Var × LiveInterval} (h : e ∈ imInsert m v iv) : e = (v, iv) ∨ e ∈ m := by
  induction m with
  | nil => simpa [imInsert] using h
  | cons hd tl ih =>
    obtain ⟨k, w⟩ := hd
    unfold imInsert at h
    by_cases h1 : v = k
    · subst h1
      simp only [if_true] at h
      rcases List.mem_cons.mp h with h2 | h2
      · exact Or.inl h2
      · exact Or.inr (List.mem_cons_of_mem _ h2)
    · simp only [h1, if_false] at h
      by_cases h2 : Var.ltb v k = true
      · simp only [h2, if_true] at h
        rcases List.mem_cons.mp h with h3 | h3
        · exact Or.inl h3
        · exact Or.inr h3
      · simp only [h2, if_false] at h
        rcases List.mem_cons.mp h with h3 | h3
        · exact Or.inr (List.mem_cons.mpr (Or.inl h3))
        · rcases ih h3 with h4 | h4
          · exact Or.inl h4
          · exact Or.inr (List.mem_cons_of_mem _ h4)

theorem imUpdate_mem {m : List (Var × LiveInterval)} {v : Var} {u : Nat}
    {e : Var × LiveInterval} (h : e ∈ imUpdate m v u) :
    e ∈ m ∨ (e.2.last_use = u ∧ ∃ w, (e.1, w) ∈ m ∧ e.2.def_idx = w.def_idx) := by
  induction m with
  | nil => simpa [imUpdate] using h
  | cons hd tl ih =>
    obtain ⟨k, w⟩ := hd
    unfold imUpdate at h
    by_cases h1 : k = v
    · subst h1
      simp only [if_true] at h
      rcases List.mem_cons.mp h with h2 | h2
      · refine Or.inr ⟨?_, w, ?_, ?_⟩ <;> simp [h2]
      · exact Or.inl (List.mem_cons_of_mem _ h2)
    · simp only [h1, if_false] at h
      rcases List.mem_cons.mp h with h2 | h2
      · exact Or.inl (List.mem_cons.mpr (Or.inl h2))
      · rcases ih h2 with h3 | h3
        · exact Or.inl (List.mem_cons_of_mem _ h3)
        · exact Or.inr ⟨h3.1, h3.2.choose, List.mem_cons_of_mem _ h3.2.choose_spec.1,
            h3.2.choose_spec.2⟩

theorem imLookup_mem {m : List (Var × LiveInterval)} {v : Var} {iv : LiveInterval}
    (h : imLookup m v = some iv) : (v, iv) ∈ m := by
  induction m with
  | nil => simp [imLookup] at h
  | cons hd tl ih =>
    obtain ⟨k, w⟩ := hd
    unfold imLookup at h
    by_cases h1 : k = v
    · subst h1
      simp only [if_true] at h
      obtain rfl : w = iv := by simpa using h
      exact List.mem_cons.mpr (Or.inl rfl)
    · simp only [h1, if_false] at h
      exact List.mem_cons_of_mem _ (ih h)

theorem imInsert_lookup_isSome {m : List (Var × LiveInterval)} {v k : Var}
    {iv : LiveInterval} (h : (imLookup m k).isSome = true ∨ k = v) :
    (imLookup (imInsert m v iv) k).isSome = true := by
  induction m with
  | nil =>
    rcases h with h | h
    · simp [imLookup] at h
    · subst h
      simp [imInsert, imLookup]
  | cons hd tl ih =>
    obtain ⟨k0, w⟩ := hd
    unfold imInsert
    by_cases h1 : v = k0
    · subst h1
      simp only [if_true]
      unfold imLookup
      by_cases h2 : v = k
      · simp [h2]
      · simp only [h2, if_false]
        rcases h with h | h
        · unfold imLookup at h
          simpa [h2] using h
        · exact absurd h.symm h2
    · simp only [h1, if_false]
      by_cases h2 : Var.ltb v k0 = true
      · simp only [h2, if_true]
        unfold imLookup
        by_cases h3 : v = k
        · simp [h3]
        · simp only [h3, if_false]
          unfold imLookup
          by_cases h4 : k0 = k
          · simp [h4]
          · simp only [h4, if_false]
            rcases h with h | h
            · unfold imLookup at h
              simpa [h4] using h
            · exact absurd h.symm h3
      · simp only [h2, if_false]
        by_cases h3 : k0 = k
        · simp [imLookup, h3]
        · simp only [imLookup, h3, if_false]
          apply ih
          rcases h with h | h
          · unfold imLookup at h
            exact Or.inl (by simpa [h3] using h)
          · exact Or.inr h

theorem imUpdate_lookup_isSome {m : List (Var × LiveInterval)} {v k : Var} {u : Nat}
    (h : (imLookup m k).isSome = true) :
    (imLookup (imUpdate m v u) k).isSome = true := by
  induction m with
  | nil => simp [imLookup] at h
  | cons hd tl ih =>
    obtain ⟨k0, w⟩ := hd
    unfold imUpdate
    by_cases h1 : k0 = v
    · simp only [h1, if_true]
      unfold imLookup
      by_cases h2 : v = k
      · simp [h2]
      · simp only [h2, if_false]
        unfold imLookup at h
        rw [h1] at h
        simpa [h2] using h
    · simp only [h1, if_false]
      unfold imLookup
      by_cases h2 : k0 = k
      · simp [h2]
      · simp only [h2, if_false]
        apply ih
        unfold imLookup at h
        simpa [h2] using h

theorem use_var_isSome {m m2 : IntervalMap} {v : Var} {pos : Nat}
    (h : m.use_var v pos = some m2) :
    (imLookup m2.data v).isSome = true ∧
    (∀ k, (imLookup m.data k).isSome = true → (imLookup m2.data k).isSome = true) := by
  unfold IntervalMap.use_var at h
  cases hl : imLookup m.data v with
  | none =>
    rw [hl] at h
    cases h
  | some iv =>
    rw [hl] at h
    obtain rfl : m2 = { data := imUpdate m.data v pos } := by
      cases h
      rfl
    constructor
    · exact imUpdate_lookup_isSome (by simp [hl])
    · exact fun k hk => imUpdate_lookup_isSome hk

theorem defineLhs_isSome {m : IntervalMap} {inst : Instruction} {pos : Nat} {k : Var}
    (h : (imLookup m.data k).isSome = true) :
    (imLookup (defineLhs m inst pos).data k).isSome = true := by
  unfold defineLhs
  cases inst.lh <;> cases inst.lh_c <;> cases inst.lh_v <;>
    simp only [IntervalMap.define_var] <;>
    first
    | exact h
    | exact imInsert_lookup_isSome (Or.inl h)
    | exact imInsert_lookup_isSome (Or.inl (imInsert_lookup_isSome (Or.inl h)))
    | exact imInsert_lookup_isSome (Or.inl (imInsert_lookup_isSome
        (Or.inl (imInsert_lookup_isSome (Or.inl h)))))

theorem imUseList_isSome {vs : List Var} {pos : Nat} {m m2 : IntervalMap}
    (h : imUseList vs pos m = some m2) :
    (∀ k, (imLookup m.data k).isSome = true → (imLookup m2.data k).isSome = true) ∧
    (∀ v ∈ vs, (imLookup m2.data v).isSome = true) := by
  induction vs generalizing m with
  | nil =>
    obtain rfl : m = m2 := by
      simpa [imUseList] using h
    exact ⟨fun k hk => hk, by simp⟩
  | cons v vs ih =>
    unfold imUseList at h
    cases huse : m.use_var v pos with
    | none =>
      rw [huse] at h
      cases h
    | some m1 =>
      rw [huse] at h
      obtain ⟨hmono, hall⟩ := ih h
      refine ⟨fun k hk => hmono _ ((use_var_isSome huse).2 _ hk), ?_⟩
      intro w hw
      rcases List.mem_cons.mp hw with rfl | hw2
      · exact hmono _ (use_var_isSome huse).1
      · exact hall _ hw2

theorem fromInsts_isSome {insts : List Instruction} {pos : Nat} {m m2 : IntervalMap}
    (h : IntervalMap.fromInsts insts pos m = some m2) :
    (∀ k, (imLookup m.data k).isSome = true → (imLookup m2.data k).isSome = true) ∧
    (∀ inst ∈ insts, ∀ v ∈ inst.get_used_vars, (imLookup m2.data v).isSome = true) := by
  induction insts generalizing pos m with
  | nil =>
    obtain rfl : m = m2 := by
      simpa [IntervalMap.fromInsts] using h
    exact ⟨fun k hk => hk, by simp⟩
  | cons inst insts ih =>
    unfold IntervalMap.fromInsts at h
    cases husl : imUseList inst.get_used_vars pos (defineLhs m inst pos) with
    | none =>
      rw [husl] at h
      cases h
    | some m4 =>
      rw [husl] at h
      obtain ⟨hmono, hused⟩ := ih h
      obtain ⟨hulmono, hulall⟩ := imUseList_isSome husl
      refine ⟨fun k hk => hmono _ (hulmono _ (defineLhs_isSome hk)), ?_⟩
      intro i hi v hv
      rcases List.mem_cons.mp hi with rfl | hi2
      · exact hmono _ (hulall _ hv)
      · exact hused _ hi2 _ hv

/-- Interval-map invariant at instruction position `pos`: every entry is
either dead (`last_use = 0`) or has `def_idx ≤ last_use`, and was defined at
or before `pos`. -/
def imWfAt (pos : Nat) (m : IntervalMap) : Prop :=
  ∀ e ∈ m.data, (e.2.last_use = 0 ∨ e.2.def_idx ≤ e.2.last_use) ∧ e.2.def_idx ≤ pos

theorem imWfAt_define {pos : Nat} {m : IntervalMap} {v : Var} (h : imWfAt pos m) :
    imWfAt pos (m.define_var v pos) := by
  intro e he
  rcases imInsert_mem he with rfl | he2
  · exact ⟨Or.inl rfl, le_refl _⟩
  · exact h e he2

theorem imWfAt_defineLhs {pos : Nat} {m : IntervalMap} {inst : Instruction}
    (h : imWfAt pos m) : imWfAt pos (defineLhs m inst pos) := by
  unfold defineLhs
  cases inst.lh <;> cases inst.lh_c <;> cases inst.lh_v <;>
    first
    | exact h
    | exact imWfAt_define h
    | exact imWfAt_define (imWfAt_define h)
    | exact imWfAt_define (imWfAt_define (imWfAt_define h))

theorem imWfAt_use {pos : Nat} {m m2 : IntervalMap} {v : Var}
    (h : imWfAt pos m) (h2 : m.use_var v pos = some m2) : imWfAt pos m2 := by
  unfold IntervalMap.use_var at h2
  cases hl : imLookup m.data v with
  | none =>
    rw [hl] at h2
    cases h2
  | some iv =>
    rw [hl] at h2
    obtain rfl : m2 = { data := imUpdate m.data v pos } := by
      cases h2
      rfl
    intro e he
    rcases imUpdate_mem he with he2 | ⟨hu, w, hw, hd⟩
    · exact h e he2
    · refine ⟨Or.inr ?_, ?_⟩
      · rw [hu, hd]
        exact (h _ hw).2
      · rw [hd]
        exact (h _ hw).2

theorem imWfAt_mono {pos pos2 : Nat} {m : IntervalMap} (hle : pos ≤ pos2)
    (h : imWfAt pos m) : imWfAt pos2 m :=
  fun e he => ⟨(h e he).1, le_trans (h e he).2 hle⟩

theorem imWfAt_imUseList {vs : List Var} {pos : Nat} {m m2 : IntervalMap}
    (h : imWfAt pos m) (h2 : imUseList vs pos m = some m2) : imWfAt pos m2 := by
  induction vs generalizing m with
  | nil =>
    obtain rfl : m = m2 := by
      simpa [imUseList] using h2
    exact h
  | cons v vs ih =>
    unfold imUseList at h2
    cases huse : m.use_var v pos with
    | none =>
      rw [huse] at h2
      cases h2
    | some m1 =>
      rw [huse] at h2
      exact ih (imWfAt_use h huse) h2

theorem imWfAt_fromInsts {insts : List Instruction} {pos : Nat} {m m2 : IntervalMap}
    (h : imWfAt pos m) (h2 : IntervalMap.fromInsts insts pos m = some m2) :
    imWfAt (pos + insts.length) m2 := by
  induction insts generalizing pos m with
  | nil =>
    obtain rfl : m = m2 := by
      simpa [IntervalMap.fromInsts] using h2
    simpa using h
  | cons inst insts ih =>
    unfold IntervalMap.fromInsts at h2
    cases husl : imUseList inst.get_used_vars pos (defineLhs m inst pos) with
    | none =>
      rw [husl] at h2
      cases h2
    | some m4 =>
      rw [husl] at h2
      have h4 : imWfAt (pos + 1) m4 :=
        imWfAt_mono (Nat.le_succ _) (imWfAt_imUseList (imWfAt_defineLhs h) husl)
      have h5 := ih h4 h2
      simpa [Nat.add_comm, Nat.add_assoc, Nat.add_left_comm] using h5

theorem isSome_mem {m : List (Var × LiveInterval)} {v : Var}
    (h : (imLookup m v).isSome = true) : ∃ iv, (v, iv) ∈ m := by
  cases hl : imLookup m v with
  | none => rw [hl] at h; cases h
  | some iv => exact ⟨iv, imLookup_mem hl⟩

theorem from_block_props {bb : BasicBlock} {m : IntervalMap}
    (h : IntervalMap.from_block bb = some m) :
    imWfAt bb.data.length m ∧
    (∀ inst ∈ bb.data, ∀ v ∈ inst.get_used_vars, (imLookup m.data v).isSome = true) ∧
    (∀ v ∈ linkVars bb.link, (imLookup m.data v).isSome = true) := by
  unfold IntervalMap.from_block at h
  cases hfi : IntervalMap.fromInsts bb.data 0 { data := [] } with
  | none =>
    simp only [hfi] at h
    cases h
  | some m0 =>
    simp only [hfi] at h
    have hwf0 : imWfAt bb.data.length m0 := by
      have := imWfAt_fromInsts (m := { data := [] }) (by intro e he; cases he) hfi
      simpa using this
    have hused0 := (fromInsts_isSome hfi).2
    cases hlink : bb.link with
    | none =>
      simp only [hlink] at h
      cases h
    | some link =>
      simp only [hlink] at h
      cases link with
      | Branch a =>
        have hmono := (use_var_isSome h).2
        refine ⟨imWfAt_use hwf0 h, fun i hi v hv => hmono _ (hused0 i hi v hv), ?_⟩
        intro v hv
        simp only [linkVars, List.mem_singleton] at hv
        subst hv
        exact (use_var_isSome h).1
      | BranchAndLink a l =>
        cases h1 : m0.use_var a bb.data.length with
        | none =>
          simp only [h1] at h
          cases h
        | some mA =>
          simp only [h1] at h
          have hmono1 := (use_var_isSome h1).2
          have hmono2 := (use_var_isSome h).2
          refine ⟨imWfAt_use (imWfAt_use hwf0 h1) h,
            fun i hi v hv => hmono2 _ (hmono1 _ (hused0 i hi v hv)), ?_⟩
          intro v hv
          simp only [linkVars, List.mem_cons, List.mem_singleton] at hv
          rcases hv with rfl | rfl | hv
          · exact hmono2 _ (use_var_isSome h1).1
          · exact (use_var_isSome h).1
          · cases hv
      | BranchCond c t f =>
        cases h1 : m0.use_var t bb.data.length with
        | none =>
          simp only [h1] at h
          cases h
        | some mA =>
          simp only [h1] at h
          have hmono1 := (use_var_isSome h1).2
          have hmono2 := (use_var_isSome h).2
          refine ⟨imWfAt_use (imWfAt_use hwf0 h1) h,
            fun i hi v hv => hmono2 _ (hmono1 _ (hused0 i hi v hv)), ?_⟩
          intro v hv
          simp only [linkVars, List.mem_cons, List.mem_singleton] at hv
          rcases hv with rfl | rfl | hv
          · exact hmono2 _ (use_var_isSome h1).1
          · exact (use_var_isSome h).1
          · cases hv

theorem get_dead_vars_mem_iff (m : IntervalMap) (v : Var) :
    v ∈ m.get_dead_vars ↔ ∃ d, (v, { def_idx := d, last_use := 0 }) ∈ m.data := by
  unfold IntervalMap.get_dead_vars
  simp only [List.mem_map, List.mem_filter, decide_eq_true_eq]
  constructor
  · rintro ⟨⟨v2, iv⟩, ⟨hmem, hu⟩, rfl⟩
    refine ⟨iv.def_idx, ?_⟩
    have hiv : iv = { def_idx := iv.def_idx, last_use := 0 } := by
      cases iv
      simp_all
    rwa [← hiv]
  · rintro ⟨d, hmem⟩
    exact ⟨(v, { def_idx := d, last_use := 0 }), ⟨hmem, rfl⟩, rfl⟩

/-- C5 amended: for every terminated block on which `from_block` succeeds,
(1) every interval has `def ≤ last_use` unless the variable is never used
(`last_use = 0`, exactly the dead entries, whose `def` may exceed 0); (2)
every variable used by an instruction's right-hand side and every variable
named by the terminator has an entry in the map; (3) `get_dead_vars` returns
exactly the variables whose `last_use` is 0. -/
theorem C5_interval_map_amended (bb : BasicBlock) (m : IntervalMap)
    (h : IntervalMap.from_block bb = some m) :
    (∀ v iv, (v, iv) ∈ m.data → iv.def_idx ≤ iv.last_use ∨ iv.last_use = 0) ∧
    (∀ inst ∈ bb.data, ∀ v ∈ inst.get_used_vars, ∃ iv, (v, iv) ∈ m.data) ∧
    (∀ v ∈ linkVars bb.link, ∃ iv, (v, iv) ∈ m.data) ∧
    (∀ v, v ∈ m.get_dead_vars ↔ ∃ d, (v, { def_idx := d, last_use := 0 }) ∈ m.data) := by
  obtain ⟨hwf, hused, hlink⟩ := from_block_props h
  exact ⟨fun v iv hm => ((hwf (v, iv) hm).1).symm,
    fun i hi v hv => isSome_mem (hused i hi v hv),
    fun v hv => isSome_mem (hlink v hv),
    fun v => get_dead_vars_mem_iff m v⟩

/-- C5 counterexample: the lifted two-instruction block for mov r0, #1
(0xE3A00001) followed by b . (0xEAFFFFFE) has an interval-map entry — the
unused carry-flag read of the barrel shifter, variable id 1 — with
`def = 1 > 0 = last_use`, so claim conjunct (1), `def ≤ last_use` for every
variable in the map, is false as stated. -/
theorem C5_def_le_last_use_counterexample :
    ((BasicBlock.lift 0 [0xE3A00001, 0xEAFFFFFE]).bind IntervalMap.from_block).map
        (fun m => m.data.all (fun e => decide (e.2.def_idx ≤ e.2.last_use))) =
      some false ∧
    ((BasicBlock.lift 0 [0xE3A00001, 0xEAFFFFFE]).bind IntervalMap.from_block).map
        (fun m =>
          decide ((Var.new_local 1 1, { def_idx := 1, last_use := 0 }) ∈ m.data)) =
      some true := by
  decide

/-- Tiny terminated block for the C5 witness: one constant definition used by
the terminator. -/
def bbW : BasicBlock :=
  { base_pc := 0,
    data := [Instruction.constant 0 (Var.new_constant 0 32 1) (Constant.new 32 1)],
    link := some (BlockLink.Branch (Var.new_constant 0 32 1)),
    lb := LocalBindings.new, guest_ops := [0], cur_pc := 0 }

/-- Interval map of `bbW`. -/
def mW : IntervalMap :=
  { data := [(Var.new_constant 0 32 1, { def_idx := 0, last_use := 1 })] }

/-- C5 witness: the amended statement at the concrete block `bbW`. -/
theorem C5_interval_map_amended_witness :
    (∀ v iv, (v, iv) ∈ mW.data → iv.def_idx ≤ iv.last_use ∨ iv.last_use = 0) ∧
    (∀ inst ∈ bbW.data, ∀ v ∈ inst.get_used_vars, ∃ iv, (v, iv) ∈ mW.data) ∧
    (∀ v ∈ linkVars bbW.link, ∃ iv, (v, iv) ∈ mW.data) ∧
    (∀ v, v ∈ mW.get_dead_vars ↔ ∃ d, (v, { def_idx := d, last_use := 0 }) ∈ mW.data) :=
  C5_interval_map_amended bbW mW (by decide)


theorem smInsert_get (m : List (Var × StorageLoc)) (v : Var) (s : StorageLoc) (k : Var) :
    smLookup (smInsert m v s) k = if k = v then some s else smLookup m k := by
  induction m with
  | nil =>
    by_cases h : k = v
    · subst h
      simp [smInsert, smLookup]
    · simp [smInsert, smLookup, h, Ne.symm h]
  | cons hd tl ih =>
    obtain ⟨k0, w⟩ := hd
    by_cases h1 : k0 = v
    · subst h1
      by_cases h2 : k = k0
      · subst h2
        simp [smInsert, smLookup]
      · simp [smInsert, smLookup, h2, Ne.symm h2]
    · by_cases h2 : k0 = k
      · subst h2
        simp [smInsert, smLookup, h1, ih, Ne.symm h1]
      · simp [smInsert, smLookup, h1, h2, ih]

theorem StorageMap.bind_get (m : StorageMap) (v : Var) (s : StorageLoc) (k : Var) :
    (m.bind v s).get k = if k = v then some s else m.get k := by
  unfold StorageMap.bind StorageMap.get
  exact smInsert_get m.data v s k

theorem HostRegister.val_inj {a b : HostRegister} (h : a.val = b.val) : a = b := by
  cases a <;> cases b <;> first | rfl | (exact absurd h (by decide))

/-- Keys not processed by `allocLoop` keep their storage binding. -/
theorem allocLoop_get_of_not_mem
    {todo : List (Var × LiveInterval)} {active : List ActiveEntry}
    {pool : RegisterPool} {storage final : StorageMap} {k : Var}
    (h : allocLoop todo active pool storage = some final)
    (hk : k ∉ todo.map (fun e => e.1)) :
    final.get k = storage.get k := by
  induction todo generalizing active pool storage with
  | nil =>
    obtain rfl : storage = final := by simpa [allocLoop] using h
    rfl
  | cons e rest ih =>
    obtain ⟨v, iv⟩ := e
    simp only [List.map_cons, List.mem_cons] at hk
    push_neg at hk
    unfold allocLoop at h
    split at h
    · rw [ih h hk.2, StorageMap.bind_get]
      simp [hk.1]
    · simp only [] at h
      split at h
      · cases h
      · rw [ih h hk.2, StorageMap.bind_get]
        simp [hk.1]

theorem RegisterPool.take_eq {p : RegisterPool} {reg : HostRegister} {p2 : RegisterPool}
    (h : p.take = some (reg, p2)) : p.data = p2.data ++ [reg] := by
  unfold RegisterPool.take at h
  cases hl : p.data.getLast? with
  | none =>
    rw [hl] at h
    cases h
  | some r0 =>
    rw [hl] at h
    obtain ⟨rfl, rfl⟩ : r0 = reg ∧ ({ data := p.data.dropLast } : RegisterPool) = p2 := by
      cases h
      exact ⟨rfl, rfl⟩
    exact (List.dropLast_append_getLast? _ hl).symm

theorem filter_regs_perm (active : List ActiveEntry) (p : ActiveEntry → Bool) :
    ((active.filter p).map (fun a => a.reg) ++
      (active.filter (fun a => !p a)).map (fun a => a.reg)).Perm
      (active.map (fun a => a.reg)) := by
  rw [← List.map_append]
  exact (List.filter_append_perm p active).map _

/-- Core linear-scan argument: if a variable `X` is already bound to host
register `r` — either still active, or retired with its last use at or before
every remaining entry's definition — then any remaining entry that ends up
bound to `r` starts (strictly) after `X`'s last use. Requires the remaining
entries to have nondecreasing definition positions, the `BTreeMap` iteration
shape guaranteed by id-ordered SSA blocks. -/
theorem allocLoop_no_overlap
    {todo : List (Var × LiveInterval)} {active : List ActiveEntry}
    {pool : RegisterPool} {storage final : StorageMap}
    {X : Var} {ivX : LiveInterval} {r : Nat}
    (h : allocLoop todo active pool storage = some final)
    (hsort : todo.Pairwise (fun e1 e2 => e1.2.def_idx ≤ e2.2.def_idx))
    (hnd : (todo.map (fun e => e.1)).Nodup)
    (hunbound : ∀ e ∈ todo, storage.get e.1 = none)
    (hregs : (pool.data ++ active.map (fun a => a.reg)).Nodup)
    (hactive : ∀ a ∈ active, storage.get a.var = some (StorageLoc.Gpr a.reg.val))
    (hX : storage.get X = some (StorageLoc.Gpr r))
    (hXloc : (∃ a ∈ active, a.var = X ∧ a.reg.val = r ∧ a.interval = ivX) ∨
        (∀ e ∈ todo, ivX.last_use ≤ e.2.def_idx)) :
    ∀ Y ivY, (Y, ivY) ∈ todo → final.get Y = some (StorageLoc.Gpr r) →
      ivX.last_use ≤ ivY.def_idx := by
  induction todo generalizing active pool storage with
  | nil =>
    intro Y ivY hY
    cases hY
  | cons e rest ih =>
    obtain ⟨v, iv⟩ := e
    obtain ⟨hsorthead, hsorttail⟩ := List.pairwise_cons.mp hsort
    have hnd2 := hnd
    rw [List.map_cons] at hnd2
    have hndhead : v ∉ rest.map (fun e => e.1) := (List.nodup_cons.mp hnd2).1
    have hndtail : (rest.map (fun e => e.1)).Nodup := (List.nodup_cons.mp hnd2).2
    have hvnone : storage.get v = none := hunbound (v, iv) (List.mem_cons_self _ _)
    have hXnev : X ≠ v := by
      intro hxe
      rw [hxe, hvnone] at hX
      cases hX
    intro Y ivY hY hYfinal
    unfold allocLoop at h
    split at h
    · -- constant entry
      rename_i c heq
      rcases List.mem_cons.mp hY with hYv | hYrest
      · obtain ⟨rfl, rfl⟩ : Y = v ∧ ivY = iv := by
          cases hYv
          exact ⟨rfl, rfl⟩
        have hfin : final.get Y = some (StorageLoc.Const c) := by
          rw [allocLoop_get_of_not_mem h hndhead, StorageMap.bind_get]
          simp
        rw [hfin] at hYfinal
        cases hYfinal
      · refine ih h hsorttail hndtail ?_ hregs ?_ ?_ ?_ Y ivY hYrest hYfinal
        · intro e he
          rw [StorageMap.bind_get]
          have : e.1 ≠ v := by
            intro hev
            exact hndhead (hev ▸ List.mem_map_of_mem (fun e => e.1) he)
          simp only [this, if_false]
          exact hunbound e (List.mem_cons_of_mem _ he)
        · intro a ha
          rw [StorageMap.bind_get]
          have : a.var ≠ v := by
            intro hav
            rw [← hav, hactive a ha] at hvnone
            cases hvnone
          simp only [this, if_false]
          exact hactive a ha
        · rw [StorageMap.bind_get]
          simp only [hXnev, if_false]
          exact hX
        · rcases hXloc with hxa | hxr
          · exact Or.inl hxa
          · exact Or.inr fun e he => hxr e (List.mem_cons_of_mem _ he)
    · -- register entry
      rename_i vkind hnotconst
      simp only [] at h
      split at h
      · cases h
      · rename_i reg pool2 htake
        have hpool1 : pool.data ++
            (active.filter (fun a => decide (a.interval.last_use ≤ iv.def_idx))).map
              (fun a => a.reg) = pool2.data ++ [reg] :=
          RegisterPool.take_eq htake
        -- permutation bookkeeping
        have hperm1 :
            ((pool.data ++
              (active.filter (fun a => decide (a.interval.last_use ≤ iv.def_idx))).map
                (fun a => a.reg)) ++
              (active.filter (fun a => !decide (a.interval.last_use ≤ iv.def_idx))).map
                (fun a => a.reg)).Perm
              (pool.data ++ active.map (fun a => a.reg)) := by
          rw [List.append_assoc]
          exact List.Perm.append_left pool.data
            (filter_regs_perm active (fun a => decide (a.interval.last_use ≤ iv.def_idx)))
        have hnodup1 :
            ((pool2.data ++ [reg]) ++
              (active.filter (fun a => !decide (a.interval.last_use ≤ iv.def_idx))).map
                (fun a => a.reg)).Nodup := by
          rw [← hpool1]
          exact hperm1.symm.nodup hregs
        have hregnotactive1 :
            reg ∉ (active.filter (fun a => !decide (a.interval.last_use ≤ iv.def_idx))).map
              (fun a => a.reg) := by
          have hdisj := List.disjoint_of_nodup_append hnodup1
          exact fun hmem => hdisj (by simp) hmem
        have hperm2 :
            ((pool2.data ++ [reg]) ++
              (active.filter (fun a => !decide (a.interval.last_use ≤ iv.def_idx))).map
                (fun a => a.reg)).Perm
              (pool2.data ++
                ((active.filter (fun a => !decide (a.interval.last_use ≤ iv.def_idx))).map
                  (fun a => a.reg) ++ [reg])) := by
          rw [List.append_assoc]
          exact List.Perm.append_left pool2.data List.perm_append_comm
        have hregs2 :
            (pool2.data ++
              ((active.filter (fun a => !decide (a.interval.last_use ≤ iv.def_idx))) ++
                [ActiveEntry.mk v iv reg]).map
                  (fun a => a.reg)).Nodup := by
          rw [List.map_append]
          simp only [List.map_cons, List.map_nil]
          exact hperm2.nodup hnodup1
        rcases List.mem_cons.mp hY with hYv | hYrest
        · -- Y is this entry: it got register reg, so r = reg.val
          obtain ⟨rfl, rfl⟩ : v = Y ∧ iv = ivY := by
            cases hYv
            exact ⟨rfl, rfl⟩
          have hfin : final.get v = some (StorageLoc.Gpr reg.val) := by
            rw [allocLoop_get_of_not_mem h hndhead, StorageMap.bind_get]
            simp
          rw [hfin] at hYfinal
          have hval : reg.val = r := by
            cases hYfinal
            rfl
          rcases hXloc with ⟨a, ha, haX, har, haiv⟩ | hxr
          · by_cases hfreed : a.interval.last_use ≤ iv.def_idx
            · rw [← haiv]
              exact hfreed
            · exfalso
              have ha1 : a ∈ active.filter
                  (fun a => !decide (a.interval.last_use ≤ iv.def_idx)) :=
                List.mem_filter.mpr ⟨ha, by simp [hfreed]⟩
              have hareg : a.reg = reg := HostRegister.val_inj (by rw [har, hval])
              exact hregnotactive1 (hareg ▸ List.mem_map_of_mem (fun a => a.reg) ha1)
          · exact hxr (v, iv) (List.mem_cons_self _ _)
        · -- Y is a later entry: recurse in the updated state
          refine ih h hsorttail hndtail ?_ hregs2 ?_ ?_ ?_ Y ivY hYrest hYfinal
          · intro e he
            rw [StorageMap.bind_get]
            have : e.1 ≠ v := by
              intro hev
              exact hndhead (hev ▸ List.mem_map_of_mem (fun e => e.1) he)
            simp only [this, if_false]
            exact hunbound e (List.mem_cons_of_mem _ he)
          · intro a ha
            rcases List.mem_append.mp ha with ha1 | hanew
            · have haorig : a ∈ active := List.mem_of_mem_filter ha1
              rw [StorageMap.bind_get]
              have : a.var ≠ v := by
                intro hav
                rw [← hav, hactive a haorig] at hvnone
                cases hvnone
              simp only [this, if_false]
              exact hactive a haorig
            · obtain rfl : a = { var := v, interval := iv, reg := reg } := by
                simpa using hanew
              rw [StorageMap.bind_get]
              simp
          · rw [StorageMap.bind_get]
            simp only [hXnev, if_false]
            exact hX
          · rcases hXloc with ⟨a, ha, haX, har, haiv⟩ | hxr
            · by_cases hfreed : a.interval.last_use ≤ iv.def_idx
              · refine Or.inr fun e he => ?_
                rw [← haiv]
                exact le_trans hfreed (hsorthead e he)
              · refine Or.inl ⟨a, ?_, haX, har, haiv⟩
                exact List.mem_append.mpr (Or.inl
                  (List.mem_filter.mpr ⟨ha, by simp [hfreed]⟩))
            · exact Or.inr fun e he => hxr e (List.mem_cons_of_mem _ he)

/-- Pairwise register-reuse ordering across the entries the allocator
processes: entries sharing a host register are separated in time. -/
theorem allocLoop_pairwise
    {todo : List (Var × LiveInterval)} {active : List ActiveEntry}
    {pool : RegisterPool} {storage final : StorageMap}
    (h : allocLoop todo active pool storage = some final)
    (hsort : todo.Pairwise (fun e1 e2 => e1.2.def_idx ≤ e2.2.def_idx))
    (hnd : (todo.map (fun e => e.1)).Nodup)
    (hunbound : ∀ e ∈ todo, storage.get e.1 = none)
    (hregs : (pool.data ++ active.map (fun a => a.reg)).Nodup)
    (hactive : ∀ a ∈ active, storage.get a.var = some (StorageLoc.Gpr a.reg.val)) :
    (∀ e ∈ todo, ∀ c, e.1.kind = VarKind.Constant c →
      final.get e.1 = some (StorageLoc.Const c)) ∧
    todo.Pairwise (fun e1 e2 => ∀ r, final.get e1.1 = some (StorageLoc.Gpr r) →
      final.get e2.1 = some (StorageLoc.Gpr r) → e1.2.last_use ≤ e2.2.def_idx) := by
  induction todo generalizing active pool storage with
  | nil =>
    refine ⟨?_, List.Pairwise.nil⟩
    intro e he
    cases he
  | cons e rest ih =>
    obtain ⟨v, iv⟩ := e
    obtain ⟨hsorthead, hsorttail⟩ := List.pairwise_cons.mp hsort
    have hnd2 := hnd
    rw [List.map_cons] at hnd2
    have hndhead : v ∉ rest.map (fun e => e.1) := (List.nodup_cons.mp hnd2).1
    have hndtail : (rest.map (fun e => e.1)).Nodup := (List.nodup_cons.mp hnd2).2
    have hvnone : storage.get v = none := hunbound (v, iv) (List.mem_cons_self _ _)
    unfold allocLoop at h
    split at h
    · -- constant entry
      rename_i c heq
      have hunbound2 : ∀ e ∈ rest, (storage.bind v (StorageLoc.Const c)).get e.1 = none := by
        intro e he
        rw [StorageMap.bind_get]
        have : e.1 ≠ v := by
          intro hev
          exact hndhead (hev ▸ List.mem_map_of_mem (fun e => e.1) he)
        simp only [this, if_false]
        exact hunbound e (List.mem_cons_of_mem _ he)
      have hactive2 : ∀ a ∈ active,
          (storage.bind v (StorageLoc.Const c)).get a.var =
            some (StorageLoc.Gpr a.reg.val) := by
        intro a ha
        rw [StorageMap.bind_get]
        have : a.var ≠ v := by
          intro hav
          rw [← hav, hactive a ha] at hvnone
          cases hvnone
        simp only [this, if_false]
        exact hactive a ha
      obtain ⟨hconstr, hpwr⟩ := ih h hsorttail hndtail hunbound2 hregs hactive2
      have hfinv : final.get v = some (StorageLoc.Const c) := by
        rw [allocLoop_get_of_not_mem h hndhead, StorageMap.bind_get]
        simp
      constructor
      · intro e he c2 hk
        rcases List.mem_cons.mp he with rfl | he2
        · rw [heq] at hk
          cases hk
          exact hfinv
        · exact hconstr e he2 c2 hk
      · refine List.pairwise_cons.mpr ⟨?_, hpwr⟩
        intro e he r hval
        rw [hfinv] at hval
        cases hval
    · -- register entry
      rename_i vkind hnotconst
      simp only [] at h
      split at h
      · cases h
      · rename_i reg pool2 htake
        have hpool1 : pool.data ++
            (active.filter (fun a => decide (a.interval.last_use ≤ iv.def_idx))).map
              (fun a => a.reg) = pool2.data ++ [reg] :=
          RegisterPool.take_eq htake
        have hperm1 :
            ((pool.data ++
              (active.filter (fun a => decide (a.interval.last_use ≤ iv.def_idx))).map
                (fun a => a.reg)) ++
              (active.filter (fun a => !decide (a.interval.last_use ≤ iv.def_idx))).map
                (fun a => a.reg)).Perm
              (pool.data ++ active.map (fun a => a.reg)) := by
          rw [List.append_assoc]
          exact List.Perm.append_left pool.data
            (filter_regs_perm active (fun a => decide (a.interval.last_use ≤ iv.def_idx)))
        have hnodup1 :
            ((pool2.data ++ [reg]) ++
              (active.filter (fun a => !decide (a.interval.last_use ≤ iv.def_idx))).map
                (fun a => a.reg)).Nodup := by
          rw [← hpool1]
          exact hperm1.symm.nodup hregs
        have hperm2 :
            ((pool2.data ++ [reg]) ++
              (active.filter (fun a => !decide (a.interval.last_use ≤ iv.def_idx))).map
                (fun a => a.reg)).Perm
              (pool2.data ++
                ((active.filter (fun a => !decide (a.interval.last_use ≤ iv.def_idx))).map
                  (fun a => a.reg) ++ [reg])) := by
          rw [List.append_assoc]
          exact List.Perm.append_left pool2.data List.perm_append_comm
        have hregs2 :
            (pool2.data ++
              ((active.filter (fun a => !decide (a.interval.last_use ≤ iv.def_idx))) ++
                [ActiveEntry.mk v iv reg]).map
                  (fun a => a.reg)).Nodup := by
          rw [List.map_append]
          simp only [List.map_cons, List.map_nil]
          exact hperm2.nodup hnodup1
        have hunbound2 : ∀ e ∈ rest,
            (storage.bind v (StorageLoc.Gpr reg.val)).get e.1 = none := by
          intro e he
          rw [StorageMap.bind_get]
          have : e.1 ≠ v := by
            intro hev
            exact hndhead (hev ▸ List.mem_map_of_mem (fun e => e.1) he)
          simp only [this, if_false]
          exact hunbound e (List.mem_cons_of_mem _ he)
        have hactive2 : ∀ a ∈ (active.filter
              (fun a => !decide (a.interval.last_use ≤ iv.def_idx))) ++
              [ActiveEntry.mk v iv reg],
            (storage.bind v (StorageLoc.Gpr reg.val)).get a.var =
              some (StorageLoc.Gpr a.reg.val) := by
          intro a ha
          rcases List.mem_append.mp ha with ha1 | hanew
          · have haorig : a ∈ active := List.mem_of_mem_filter ha1
            rw [StorageMap.bind_get]
            have : a.var ≠ v := by
              intro hav
              rw [← hav, hactive a haorig] at hvnone
              cases hvnone
            simp only [this, if_false]
            exact hactive a haorig
          · obtain rfl : a = ActiveEntry.mk v iv reg := by
              simpa using hanew
            rw [StorageMap.bind_get]
            simp
        obtain ⟨hconstr, hpwr⟩ := ih h hsorttail hndtail hunbound2 hregs2 hactive2
        have hfinv : final.get v = some (StorageLoc.Gpr reg.val) := by
          rw [allocLoop_get_of_not_mem h hndhead, StorageMap.bind_get]
          simp
        constructor
        · intro e he c2 hk
          rcases List.mem_cons.mp he with rfl | he2
          · exact absurd hk (hnotconst c2)
          · exact hconstr e he2 c2 hk
        · refine List.pairwise_cons.mpr ⟨?_, hpwr⟩
          intro e he r hval heval
          obtain ⟨Y, ivY⟩ := e
          have hrv : reg.val = r := by
            rw [hfinv] at hval
            cases hval
            rfl
          refine allocLoop_no_overlap (X := v) h hsorttail hndtail hunbound2 hregs2
            hactive2 ?_ ?_ Y ivY he heval
          · rw [StorageMap.bind_get]
            simp [hrv]
          · refine Or.inl ⟨ActiveEntry.mk v iv reg, ?_, rfl, hrv, rfl⟩
            exact List.mem_append.mpr (Or.inr (List.mem_singleton.mpr rfl))

/-- C7 counterexample: on an arbitrary interval map the claim is false. The
map below (iterated in `Var`-id order, as a `BTreeMap` would) contains a
middle entry whose `last_use` 0 lets its register expire immediately, so the
allocator hands register RAX (`Gpr 0`) to both variable 1 with interval
(0, 10] and variable 3 with interval (5, 8], which overlap (at 6, among
others); both are non-constant and distinct. -/
theorem C7_allocator_disjointness_counterexample :
    (allocate_registers
        { data := [
            ({ id := 1, width := 32, kind := VarKind.Local },
              { def_idx := 0, last_use := 10 }),
            ({ id := 2, width := 32, kind := VarKind.Local },
              { def_idx := 10, last_use := 0 }),
            ({ id := 3, width := 32, kind := VarKind.Local },
              { def_idx := 5, last_use := 8 })] }).map
      (fun s =>
        decide (s.get { id := 1, width := 32, kind := VarKind.Local } =
            some (StorageLoc.Gpr 0)) &&
        decide (s.get { id := 3, width := 32, kind := VarKind.Local } =
            some (StorageLoc.Gpr 0))) = some true ∧
    (0 < 6 ∧ 6 ≤ 10 ∧ 5 < 6 ∧ 6 ≤ 8) := by
  decide

/-- C7 amended: when `allocate_registers` succeeds on an interval map whose
entries, in iteration (Var) order, have nondecreasing definition positions
and pairwise-distinct variables — the shape `IntervalMap::from_block`
produces for the lifter's id-ordered SSA blocks — any two distinct
non-constant variables bound to the same host register `Gpr(r)` have
disjoint half-open live intervals `(def, last_use]`, and every
`Constant`-kind variable is bound to `StorageLoc::Const` of its value
(consuming no register). -/
theorem C7_allocator_amended (m : IntervalMap) (storage : StorageMap)
    (halloc : allocate_registers m = some storage)
    (hsort : m.data.Pairwise (fun e1 e2 => e1.2.def_idx ≤ e2.2.def_idx))
    (hnd : (m.data.map (fun e => e.1)).Nodup) :
    (∀ v iv c, (v, iv) ∈ m.data → v.kind = VarKind.Constant c →
      storage.get v = some (StorageLoc.Const c)) ∧
    (∀ X ivX Y ivY r, (X, ivX) ∈ m.data → (Y, ivY) ∈ m.data → X ≠ Y →
      storage.get X = some (StorageLoc.Gpr r) →
      storage.get Y = some (StorageLoc.Gpr r) →
      ∀ t, ¬(ivX.def_idx < t ∧ t ≤ ivX.last_use ∧
          ivY.def_idx < t ∧ t ≤ ivY.last_use)) := by
  unfold allocate_registers at halloc
  obtain ⟨hconst, hpw⟩ := allocLoop_pairwise halloc hsort hnd
    (fun e he => rfl) (by decide) (fun a ha => absurd ha (List.not_mem_nil a))
  constructor
  · exact fun v iv c hm hk => hconst (v, iv) hm c hk
  · intro X ivX Y ivY r hXm hYm hne hsX hsY t
    have hpw2 : m.data.Pairwise (fun e1 e2 =>
        (∀ r, storage.get e1.1 = some (StorageLoc.Gpr r) →
          storage.get e2.1 = some (StorageLoc.Gpr r) →
            e1.2.last_use ≤ e2.2.def_idx) ∨
        (∀ r, storage.get e2.1 = some (StorageLoc.Gpr r) →
          storage.get e1.1 = some (StorageLoc.Gpr r) →
            e2.2.last_use ≤ e1.2.def_idx)) :=
      hpw.imp (fun hx => Or.inl hx)
    have hsymm : Symmetric (fun (e1 e2 : Var × LiveInterval) =>
        (∀ r, storage.get e1.1 = some (StorageLoc.Gpr r) →
          storage.get e2.1 = some (StorageLoc.Gpr r) →
            e1.2.last_use ≤ e2.2.def_idx) ∨
        (∀ r, storage.get e2.1 = some (StorageLoc.Gpr r) →
          storage.get e1.1 = some (StorageLoc.Gpr r) →
            e2.2.last_use ≤ e1.2.def_idx)) := by
      intro a b hab
      rcases hab with hx | hx
      · exact Or.inr hx
      · exact Or.inl hx
    have hpairne : ((X, ivX) : Var × LiveInterval) ≠ (Y, ivY) := by
      intro hcontra
      apply hne
      cases hcontra
      rfl
    have hR := hpw2.forall hsymm hXm hYm hpairne
    rcases hR with h1 | h1
    · have h2 := h1 r hsX hsY
      simp only at h2
      omega
    · have h2 := h1 r hsY hsX
      simp only at h2
      omega

/-- Sorted, duplicate-free three-entry interval map for the C7 witness. -/
def mW7 : IntervalMap :=
  { data := [
      ({ id := 0, width := 32, kind := VarKind.Constant 5 },
        { def_idx := 0, last_use := 1 }),
      ({ id := 1, width := 32, kind := VarKind.Local },
        { def_idx := 0, last_use := 2 }),
      ({ id := 2, width := 32, kind := VarKind.Local },
        { def_idx := 1, last_use := 3 })] }

/-- Storage map the allocator produces for `mW7`. -/
def sW7 : StorageMap :=
  { data := [
      ({ id := 0, width := 32, kind := VarKind.Constant 5 }, StorageLoc.Const 5),
      ({ id := 1, width := 32, kind := VarKind.Local }, StorageLoc.Gpr 0),
      ({ id := 2, width := 32, kind := VarKind.Local }, StorageLoc.Gpr 1)] }

/-- C7 witness: the amended statement at the concrete map `mW7`. -/
theorem C7_allocator_amended_witness :
    allocate_registers mW7 = some sW7 ∧
    ((∀ v iv c, (v, iv) ∈ mW7.data → v.kind = VarKind.Constant c →
      sW7.get v = some (StorageLoc.Const c)) ∧
    (∀ X ivX Y ivY r, (X, ivX) ∈ mW7.data → (Y, ivY) ∈ mW7.data → X ≠ Y →
      sW7.get X = some (StorageLoc.Gpr r) →
      sW7.get Y = some (StorageLoc.Gpr r) →
      ∀ t, ¬(ivX.def_idx < t ∧ t ≤ ivX.last_use ∧
          ivY.def_idx < t ∧ t ≤ ivY.last_use))) :=
  ⟨by decide, C7_allocator_amended mW7 sW7 (by decide) (by decide) (by decide)⟩

end Nil

namespace Nil

/-- Number of flag bindings an instruction carries. -/
def instFlags (i : Instruction) : Nat :=
  (if i.lh_c.isSome then 1 else 0) + (if i.lh_v.isSome then 1 else 0)

/-- Progress measure of a block body: instruction count plus flag bindings. -/
def measureData : List Instruction → Nat
  | [] => 0
  | i :: rest => 1 + instFlags i + measureData rest

theorem clearFlags_le (i : Instruction) (d : Var) :
    instFlags (clearFlags i d) ≤ instFlags i ∧
    (instFlags (clearFlags i d) = instFlags i → clearFlags i d = i) := by
  unfold clearFlags instFlags
  cases hc : i.lh_c with
  | none =>
    cases hv : i.lh_v with
    | none => simp [hc, hv]
    | some v =>
      by_cases hvd : v = d
      · simp [hc, hv, hvd]
      · simp [hc, hv, hvd]
  | some c =>
    by_cases hcd : c = d
    · cases hv : i.lh_v with
      | none => simp [hc, hv, hcd]
      | some v =>
        by_cases hvd : v = d
        · simp [hc, hv, hcd, hvd]
        · simp [hc, hv, hcd, hvd]
    · cases hv : i.lh_v with
      | none => simp [hc, hv, hcd]
      | some v =>
        by_cases hvd : v = d
        · simp [hc, hv, hcd, hvd]
        · simp [hc, hv, hcd, hvd]

theorem measureData_map_clear (data : List Instruction) (d : Var) :
    measureData (data.map (fun i => clearFlags i d)) ≤ measureData data ∧
    (measureData (data.map (fun i => clearFlags i d)) = measureData data →
      data.map (fun i => clearFlags i d) = data) := by
  induction data with
  | nil => simp [measureData]
  | cons i rest ih =>
    simp only [List.map_cons, measureData]
    obtain ⟨h1, h2⟩ := clearFlags_le i d
    constructor
    · omega
    · intro heq
      have hflag : instFlags (clearFlags i d) = instFlags i := by omega
      have hrest : measureData (rest.map (fun i => clearFlags i d)) = measureData rest := by
        omega
      rw [h2 hflag, ih.2 hrest]

theorem measureData_filter (p : Instruction → Bool) (data : List Instruction) :
    measureData (data.filter p) ≤ measureData data ∧
    (measureData (data.filter p) = measureData data → data.filter p = data) := by
  induction data with
  | nil => simp [measureData]
  | cons i rest ih =>
    by_cases hp : p i = true
    · simp only [List.filter_cons, hp, if_true, measureData]
      constructor
      · omega
      · intro heq
        have : measureData (rest.filter p) = measureData rest := by omega
        simp [hp, ih.2 this]
    · have hp2 : p i = false := by simpa using hp
      simp only [List.filter_cons, hp2, Bool.false_eq_true, if_false, measureData]
      constructor
      · have := ih.1
        omega
      · intro heq
        have := ih.1
        omega

theorem cmRemove_length (m : List (Constant × Var)) (c : Constant) :
    (cmRemove m c).length ≤ m.length ∧
    ((cmRemove m c).length = m.length → cmRemove m c = m) := by
  induction m with
  | nil => simp [cmRemove]
  | cons e rest ih =>
    obtain ⟨k, w⟩ := e
    by_cases hk : k = c
    · simp only [cmRemove, hk, if_true]
      constructor
      · simp
      · intro heq
        simp only [List.length_cons] at heq
        omega
    · simp only [cmRemove, hk, if_false]
      constructor
      · simp only [List.length_cons]
        omega
      · intro heq
        simp only [List.length_cons] at heq
        rw [ih.2 (by omega)]

theorem pruneProcessDead_measure (dl : List Var) (data : List Instruction)
    (lb : LocalBindings) :
    measureData (pruneProcessDead dl data lb).1 ≤ measureData data ∧
    (pruneProcessDead dl data lb).2.const_map.length ≤ lb.const_map.length ∧
    (measureData (pruneProcessDead dl data lb).1 = measureData data ∧
      (pruneProcessDead dl data lb).2.const_map.length = lb.const_map.length →
      (pruneProcessDead dl data lb).1 = data ∧
      (pruneProcessDead dl data lb).2 = lb) := by
  induction dl generalizing data lb with
  | nil =>
    exact ⟨le_refl _, le_refl _, fun _ => ⟨rfl, rfl⟩⟩
  | cons d dl ih =>
    cases hk : d.kind with
    | Constant c =>
      have hred : pruneProcessDead (d :: dl) data lb =
          pruneProcessDead dl (data.map (fun i => clearFlags i d))
            (lb.remove_constant (Constant.new d.width c)) := by
        simp only [pruneProcessDead, hk]
      rw [hred]
      obtain ⟨ihm, ihc, iheq⟩ :=
        ih (data.map (fun i => clearFlags i d))
          (lb.remove_constant (Constant.new d.width c))
      obtain ⟨hm1, hm2⟩ := measureData_map_clear data d
      obtain ⟨hr1, hr2⟩ := cmRemove_length lb.const_map (Constant.new d.width c)
      have hLc : (lb.remove_constant (Constant.new d.width c)).const_map =
          cmRemove lb.const_map (Constant.new d.width c) := rfl
      refine ⟨le_trans ihm hm1, ?_, ?_⟩
      · rw [hLc] at ihc
        omega
      · intro ⟨hme, hce⟩
        rw [hLc] at ihc
        have hrlen : (cmRemove lb.const_map (Constant.new d.width c)).length =
            lb.const_map.length := by omega
        have hLeq : lb.remove_constant (Constant.new d.width c) = lb := by
          unfold LocalBindings.remove_constant
          rw [hr2 hrlen]
        have hmm : measureData (data.map (fun i => clearFlags i d)) = measureData data := by
          omega
        obtain ⟨he1, he2⟩ := iheq ⟨by omega, by rw [hLc]; omega⟩
        exact ⟨by rw [he1, hm2 hmm], by rw [he2, hLeq]⟩
    | Local =>
      have hred : pruneProcessDead (d :: dl) data lb =
          pruneProcessDead dl (data.map (fun i => clearFlags i d)) lb := by
        simp only [pruneProcessDead, hk]
      rw [hred]
      obtain ⟨ihm, ihc, iheq⟩ := ih (data.map (fun i => clearFlags i d)) lb
      obtain ⟨hm1, hm2⟩ := measureData_map_clear data d
      refine ⟨le_trans ihm hm1, ihc, ?_⟩
      intro ⟨hme, hce⟩
      have hmm : measureData (data.map (fun i => clearFlags i d)) = measureData data := by
        omega
      obtain ⟨he1, he2⟩ := iheq ⟨by omega, hce⟩
      exact ⟨by rw [he1, hm2 hmm], he2⟩
    | GuestReg r =>
      have hred : pruneProcessDead (d :: dl) data lb =
          pruneProcessDead dl (data.map (fun i => clearFlags i d)) lb := by
        simp only [pruneProcessDead, hk]
      rw [hred]
      obtain ⟨ihm, ihc, iheq⟩ := ih (data.map (fun i => clearFlags i d)) lb
      obtain ⟨hm1, hm2⟩ := measureData_map_clear data d
      refine ⟨le_trans ihm hm1, ihc, ?_⟩
      intro ⟨hme, hce⟩
      have hmm : measureData (data.map (fun i => clearFlags i d)) = measureData data := by
        omega
      obtain ⟨he1, he2⟩ := iheq ⟨by omega, hce⟩
      exact ⟨by rw [he1, hm2 hmm], he2⟩

theorem pruneStep_dichotomy (bb bb2 : BasicBlock)
    (h : pruneStep bb = some (false, bb2)) :
    measureData bb2.data + bb2.lb.const_map.length <
      measureData bb.data + bb.lb.const_map.length ∨ bb2 = bb := by
  unfold pruneStep at h
  cases hfb : IntervalMap.from_block bb with
  | none =>
    rw [hfb] at h
    cases h
  | some intervals =>
    simp only [hfb] at h
    by_cases hd : intervals.get_dead_vars = []
    · simp [hd] at h
    · simp only [if_neg hd, Option.some.injEq, Prod.mk.injEq, true_and] at h
      subst h
      obtain ⟨pm, pc, peq⟩ :=
        pruneProcessDead_measure intervals.get_dead_vars bb.data bb.lb
      obtain ⟨fm, feq⟩ := measureData_filter (pruneRetain intervals.get_dead_vars)
        (pruneProcessDead intervals.get_dead_vars bb.data bb.lb).1
      show measureData ((pruneProcessDead intervals.get_dead_vars bb.data bb.lb).1.filter
          (pruneRetain intervals.get_dead_vars)) +
        (pruneProcessDead intervals.get_dead_vars bb.data bb.lb).2.const_map.length <
        measureData bb.data + bb.lb.const_map.length ∨
        ({ bb with
            data := (pruneProcessDead intervals.get_dead_vars bb.data bb.lb).1.filter
              (pruneRetain intervals.get_dead_vars),
            lb := (pruneProcessDead intervals.get_dead_vars bb.data bb.lb).2 } :
          BasicBlock) = bb
      by_cases hlt : measureData
          ((pruneProcessDead intervals.get_dead_vars bb.data bb.lb).1.filter
            (pruneRetain intervals.get_dead_vars)) +
          (pruneProcessDead intervals.get_dead_vars bb.data bb.lb).2.const_map.length <
          measureData bb.data + bb.lb.const_map.length
      · exact Or.inl hlt
      · right
        have h3 : measureData (pruneProcessDead intervals.get_dead_vars bb.data bb.lb).1 =
            measureData bb.data := by omega
        have h4 : (pruneProcessDead intervals.get_dead_vars bb.data bb.lb).2.const_map.length =
            bb.lb.const_map.length := by omega
        obtain ⟨e1, e2⟩ := peq ⟨h3, h4⟩
        have e3 : (pruneProcessDead intervals.get_dead_vars bb.data bb.lb).1.filter
            (pruneRetain intervals.get_dead_vars) =
            (pruneProcessDead intervals.get_dead_vars bb.data bb.lb).1 := feq (by omega)
        rw [e3, e1, e2]

/-- Iterating the not-done branch of the fixpoint loop `k` times; `none` when
an iteration exits, finishes or panics before `k` rounds elapse. -/
def stepIter : Nat → BasicBlock → Option BasicBlock
  | 0, bb => some bb
  | k + 1, bb =>
    match pruneStep bb with
    | some (false, bb1) => stepIter k bb1
    | _ => none

theorem prune_fix_none {bb : BasicBlock} (h : pruneStep bb = some (false, bb)) :
    ∀ n, prune_dead_vars n bb = none := by
  intro n
  induction n with
  | zero => rfl
  | succ n ih =>
    unfold prune_dead_vars
    simp only [h]
    exact ih

/-- The dead primary-result / live flag-binding block the claim singles out:
`v1 := Sub32(v0, v0)` also binds the carry to `v2`; `v1` is never used while
`v2` is, so `v1` is dead every round but `retain` keeps its instruction. -/
def B10 : BasicBlock :=
  { base_pc := 0, cur_pc := 0, guest_ops := [0],
    link := some (BlockLink.Branch (Var.mk 4 32 (VarKind.Constant 99))),
    lb := LocalBindings.new,
    data :=
      [ { guest_op := 0, lh := some (Var.mk 0 32 (VarKind.Constant 0)),
          lh_c := none, lh_v := none,
          rh := Operation.Bind (BindOp.Const (Constant.new 32 0)) },
        { guest_op := 0, lh := some (Var.mk 1 32 VarKind.Local),
          lh_c := some (Var.mk 2 1 VarKind.Local), lh_v := none,
          rh := Operation.Arith (ArithOp.Sub32 (Var.mk 0 32 (VarKind.Constant 0))
            (Var.mk 0 32 (VarKind.Constant 0))) },
        { guest_op := 0, lh := none, lh_c := none, lh_v := none,
          rh := Operation.Bind (BindOp.WriteFlag FlagKind.Carry
            (Var.mk 2 1 VarKind.Local)) },
        { guest_op := 0, lh := some (Var.mk 4 32 (VarKind.Constant 99)),
          lh_c := none, lh_v := none,
          rh := Operation.Bind (BindOp.Const (Constant.new 32 99)) } ] }

/-- C10 counterexample: on the terminated block `B10` — exactly the
dead-`lh` / live-`lh_c` shape the claim says is handled — one loop iteration
returns the block unchanged while its dead list stays nonempty, so
`prune_dead_vars` diverges: no fuel ever makes it return. -/
theorem C10_prune_nontermination_counterexample :
    B10.link.isSome = true ∧
    (IntervalMap.from_block B10).map IntervalMap.get_dead_vars =
      some [Var.mk 1 32 VarKind.Local] ∧
    pruneStep B10 = some (false, B10) ∧
    ¬ ∃ fuel bb2, prune_dead_vars fuel B10 = some bb2 := by
  refine ⟨rfl, by decide, by decide, ?_⟩
  rintro ⟨fuel, bb2, hp⟩
  rw [prune_fix_none (by decide) fuel] at hp
  cases hp

/-- C10: `prune_dead_vars` does NOT terminate on every terminated block (see
the counterexample); what holds instead is that every run is finitely
decided: each not-done iteration either strictly shrinks the measure
(instruction count + flag bindings + cached constants) or returns the block
completely unchanged, so from any block the loop either terminates with some
finite fuel, or after finitely many rounds panics or reaches a block it maps
to itself with a nonempty dead list — and from that fixed point it loops
forever. -/
theorem C10_prune_terminates_or_sticks (bb : BasicBlock) :
    (∃ fuel bb2, prune_dead_vars fuel bb = some bb2) ∨
    (∃ k bbk, stepIter k bb = some bbk ∧
      (pruneStep bbk = none ∨ pruneStep bbk = some (false, bbk))) := by
  generalize hM : measureData bb.data + bb.lb.const_map.length = M
  induction M using Nat.strong_induction_on generalizing bb with
  | _ M ih =>
    cases hstep : pruneStep bb with
    | none => exact Or.inr ⟨0, bb, rfl, Or.inl hstep⟩
    | some pr =>
      obtain ⟨done, bb2⟩ := pr
      cases done with
      | true =>
        refine Or.inl ⟨1, bb2, ?_⟩
        unfold prune_dead_vars
        simp only [hstep]
      | false =>
        rcases pruneStep_dichotomy bb bb2 hstep with hlt | heq
        · subst hM
          rcases ih _ hlt bb2 rfl with ⟨n, r, hr⟩ | ⟨k, bbk, hik, hp⟩
          · refine Or.inl ⟨n + 1, r, ?_⟩
            unfold prune_dead_vars
            simp only [hstep]
            exact hr
          · refine Or.inr ⟨k + 1, bbk, ?_, hp⟩
            unfold stepIter
            simp only [hstep]
            exact hik
        · subst heq
          exact Or.inr ⟨0, bb2, rfl, Or.inr hstep⟩

end Nil
